import Mathlib

/-!
Verification of the message decision/routing pipeline of the monchatbot
repository: text normalization and trigger scoring (`app/bot_answers.py`,
`app/response_manager.py`), bot identity resolution (`app/bot_answers.py`),
the decision engine (`app/decision_engine.py`), the conversation flow
executor (`app/flow_executor.py`), the knowledge integrator
(`app/knowledge_integrator.py`) and the identity post-processing pass
(`app/context_builder.py`, `app/routes.py`).

Strings are embedded as `List Char`; Python float scores are embedded as
rationals (`ℚ`); database tables are embedded as explicit lists of rows;
fallible calls are embedded as `Except` values.  Behaviour that depends on
a regular-expression engine is parameterized by an abstract search
function, and the Unicode NFKD folding step of `normalize_text` is
parameterized by an abstract per-character decomposition (ASCII characters
are fixed by NFKD, which the embedding builds in; everything proved about
normalization holds for every decomposition table, in particular the real
one).
-/

/-- Characters of a string literal, the `List Char` form used throughout. -/
def chars (s : String) : List Char := s.data

/-- Python `\s` on ASCII text: space, tab, newline, carriage return,
vertical tab, form feed. -/
def isPySpace (c : Char) : Bool :=
  c == ' ' || c == '\t' || c == '\n' || c == '\r' ||
  c == Char.ofNat 11 || c == Char.ofNat 12

/-- Characters kept by the `[^a-z0-9\s]` scrub of `normalize_text`:
lowercase ASCII letters and digits. -/
def isLowerAlnum (c : Char) : Bool :=
  (97 ≤ c.toNat && c.toNat ≤ 122) || (48 ≤ c.toNat && c.toNat ≤ 57)

/-- Python `str.lower` on an ASCII character. -/
def pyLowerAscii (c : Char) : Char :=
  if 65 ≤ c.toNat && c.toNat ≤ 90 then Char.ofNat (c.toNat + 32) else c

/-- One character of `text.lower()` followed by
`unicodedata.normalize('NFKD', ·).encode('ASCII', 'ignore')`: an ASCII
character is lowercased and kept (NFKD fixes ASCII), a non-ASCII character
is handled by the decomposition table `fold`. -/
def foldAscii (fold : Char → List Char) (c : Char) : List Char :=
  if c.toNat ≤ 127 then [pyLowerAscii c] else fold c

/-- The `re.sub(r'[^a-z0-9\s]', ' ', text)` step: every character that is
neither a lowercase alphanumeric nor whitespace becomes a space. -/
def scrub (s : List Char) : List Char :=
  s.map (fun c => if isLowerAlnum c || isPySpace c then c else ' ')

/-- The `re.sub(r'\s+', ' ', text)` step: each maximal whitespace run
becomes one space.  `prev` records whether the previous character belonged
to a whitespace run. -/
def collapseWs : List Char → Bool → List Char
  | [], _ => []
  | c :: rest, prev =>
    if isPySpace c then
      if prev then collapseWs rest true else ' ' :: collapseWs rest true
    else c :: collapseWs rest false

/-- Python `str.strip()`: drop whitespace from both ends. -/
def pyStrip (l : List Char) : List Char :=
  ((l.dropWhile isPySpace).reverse.dropWhile isPySpace).reverse

/-- `normalize_text` of `app/bot_answers.py`, parameterized by the NFKD
decomposition table for non-ASCII characters: empty guard, lowercase,
NFKD + ASCII-ignore, scrub specials to spaces, collapse whitespace runs,
strip. -/
def normalizeTextWith (fold : Char → List Char) (s : List Char) : List Char :=
  if s.isEmpty then []
  else pyStrip (collapseWs (scrub ((s.map (foldAscii fold)).flatten)) false)

/-- A concrete decomposition table covering the accented characters the
repository's French texts use; any other non-ASCII character is dropped,
as `encode('ASCII', 'ignore')` does for characters with no ASCII
decomposition. -/
def nfkdFold (c : Char) : List Char :=
  if c == 'é' || c == 'è' || c == 'ê' || c == 'ë' ||
     c == 'É' || c == 'È' || c == 'Ê' || c == 'Ë' then ['e']
  else if c == 'à' || c == 'â' || c == 'ä' || c == 'À' || c == 'Â' then ['a']
  else if c == 'ç' || c == 'Ç' then ['c']
  else if c == 'ù' || c == 'û' || c == 'ü' || c == 'Ù' || c == 'Û' then ['u']
  else if c == 'ô' || c == 'ö' || c == 'Ô' then ['o']
  else if c == 'î' || c == 'ï' || c == 'Î' || c == 'Ï' then ['i']
  else []

/-- `normalize_text` with the concrete decomposition table. -/
def normalize_text (s : List Char) : List Char := normalizeTextWith nfkdFold s

/-- Python `str.split()` with no argument: split on whitespace runs,
dropping empty pieces.  `cur` accumulates the current word reversed. -/
def splitWsAux (cur : List Char) : List Char → List (List Char)
  | [] => if cur.isEmpty then [] else [cur.reverse]
  | c :: rest =>
    if isPySpace c then
      if cur.isEmpty then splitWsAux [] rest
      else cur.reverse :: splitWsAux [] rest
    else splitWsAux (c :: cur) rest

/-- Python `str.split()` with no argument. -/
def splitWs (s : List Char) : List (List Char) := splitWsAux [] s

/-- Distinct elements of a list in first-occurrence order: the embedding
of a Python `set` built from the list (only membership and cardinality of
the set are ever used). -/
def distinctAux [BEq α] (seen : List α) : List α → List α
  | [] => []
  | a :: t => if seen.contains a then distinctAux seen t
              else a :: distinctAux (a :: seen) t

/-- Distinct elements of a list, first occurrences kept. -/
def distinct [BEq α] (l : List α) : List α := distinctAux [] l

/-- Whether `n` is a prefix of `h` (character lists). -/
def listStarts : List Char → List Char → Bool
  | [], _ => true
  | _ :: _, [] => false
  | a :: as, b :: bs => a == b && listStarts as bs

/-- Python `n in h` on strings: `n` occurs as a contiguous substring of
`h` (the empty string occurs in everything). -/
def isSubstr (n : List Char) : List Char → Bool
  | [] => n.isEmpty
  | c :: rest => listStarts n (c :: rest) || isSubstr n rest

/-- `ResponseManager._calculate_trigger_score` of `app/response_manager.py`:
empty trigger list scores 0; each trigger contributes 1.0 on a full
normalized substring match, else `(matching words / trigger words) * 0.7`
when some trigger word occurs among the message words; the result is the
mean contribution over the triggers, capped at 1.0. -/
def calculateTriggerScore (message : List Char) (triggers : List (List Char)) : ℚ :=
  if triggers.isEmpty then 0
  else
    let messageWords := distinct (splitWs message)
    let total : ℚ := triggers.foldl
      (fun acc trigger =>
        let tn := normalize_text trigger
        if isSubstr tn message then acc + 1
        else
          let tw := distinct (splitWs tn)
          let matching := tw.filter (fun w => messageWords.contains w)
          if matching.isEmpty then acc
          else acc + ((matching.length : ℚ) / (tw.length : ℚ)) * (7 / 10))
      0
    min (total / (triggers.length : ℚ)) 1

/-- Python truthiness of an optional string column: `None` and `""` are
falsy. -/
def truthyStr : Option (List Char) → Bool
  | none => false
  | some s => !s.isEmpty

/-- Python `a or b` on an optional string: keep `a` when truthy, else `b`. -/
def orElseStr (a : Option (List Char)) (b : List Char) : List Char :=
  match a with
  | some s => if s.isEmpty then b else s
  | none => b

/-- A row of the `Settings` table (`app/models.py`): the identity columns
and the owner (`user_id`, null for the global row).  Provider/key columns
are not used by the functions under verification. -/
structure SettingsRow where
  userId : Option Int
  botName : Option (List Char)
  botDescription : Option (List Char)
  botWelcome : Option (List Char)
  botAvatar : Option (List Char)
deriving Repr, DecidableEq

/-- The bot identity dictionary returned by `get_bot_info`. -/
structure BotInfo where
  name : List Char
  description : List Char
  welcome : List Char
  avatar : List Char
deriving Repr, DecidableEq

/-- The `bot_data` dictionary built from a found `Settings` row:
each field defaulted through Python `or`. -/
def botDataOfRow (s : SettingsRow) : BotInfo where
  name := orElseStr s.botName (chars "Assistant")
  description := orElseStr s.botDescription (chars "Je suis votre assistant virtuel spécialisé.")
  welcome := orElseStr s.botWelcome (chars "")
  avatar := orElseStr s.botAvatar (chars "")

/-- The default `bot_data` used when no `Settings` row is found at all. -/
def botDataDefault : BotInfo where
  name := chars "Assistant"
  description := chars "Je suis votre assistant virtuel spécialisé."
  welcome := chars "Bonjour ! Comment puis-je vous aider aujourd'hui ?"
  avatar := chars ""

/-- `get_bot_info` of `app/bot_answers.py` on a cold cache: the row lookup
strategy over the `Settings` table.  Step 1 uses the user-specific row only
when `user_id` is truthy and the row's `bot_name` is truthy; step 2 falls
back to the global row (`user_id` null); step 3 falls back to the first
row; otherwise hardcoded defaults are used.  `rows` is the table in
database order (`first()` returns its head). -/
def get_bot_info (rows : List SettingsRow) (userId : Option Int) : BotInfo :=
  let userTruthy : Bool := match userId with
    | some u => u != 0
    | none => false
  let step1 : Option SettingsRow :=
    if userTruthy then
      match rows.find? (fun r => r.userId == userId) with
      | some r => if truthyStr r.botName then some r else none
      | none => none
    else none
  let step2 : Option SettingsRow :=
    match step1 with
    | some r => some r
    | none => rows.find? (fun r => r.userId == none)
  let step3 : Option SettingsRow :=
    match step2 with
    | some r => some r
    | none => rows.head?
  match step3 with
  | some r => botDataOfRow r
  | none => botDataDefault

/-- Modelled from the spec's words for comparison with the source (claim
C5): the resolution chain as the spec states it, with no condition on the
user row's `bot_name` — "user-specific Settings row, then the global row
(user_id is null), then the first row found, then a hardcoded default". -/
def get_bot_info_claimed (rows : List SettingsRow) (userId : Option Int) : BotInfo :=
  match rows.find? (fun r => r.userId == userId && userId != none) with
  | some r => botDataOfRow r
  | none =>
    match rows.find? (fun r => r.userId == none) with
    | some r => botDataOfRow r
    | none =>
      match rows.head? with
      | some r => botDataOfRow r
      | none => botDataDefault

/-- The dictionary `FlowExecutor.execute_flow` hands back to the decision
engine; the engine only reads `content` (`result.get('content')`). -/
structure FlowStageResult where
  flowId : Int
  flowName : List Char
  content : List Char
deriving Repr, DecidableEq

/-- The dictionary `ResponseManager.find_matching_response` hands back;
the engine only reads `content`. -/
structure ConfiguredStageResult where
  content : List Char
  confidence : ℚ
deriving Repr, DecidableEq

/-- The external AI api manager as the decision engine sees it: a
readiness flag and `generate_response`, which may raise (its exceptions
are represented as `Except.error`). -/
structure ApiManager where
  isReady : Bool
  currentProvider : List Char
  generateResponse : Except (List Char) (Option (List Char))

/-- The collaborators `DecisionEngine.get_response` consults, each call
represented as an `Except` so that an exception raised inside a stage can
be modelled (`Except.error` = the call raised). -/
structure Env where
  hasActiveFlows : Except (List Char) Bool
  findMatchingFlow : Except (List Char) (Option Int)
  executeFlow : Int → Except (List Char) (Option FlowStageResult)
  hasConfiguredResponses : Except (List Char) Bool
  findMatchingResponse : Except (List Char) (Option ConfiguredStageResult)
  apiManager : Option ApiManager
  getErrorMessage : Except (List Char) (List Char)

/-- `DecisionEngine._try_flow_response`: guard on active flows, find a
matching flow (`if not flow_id` also rejects id 0), execute it, keep the
result only when its content is truthy; any exception in the stage is
caught and becomes `None`. -/
def tryFlowResponse (env : Env) : Option FlowStageResult :=
  let run : Except (List Char) (Option FlowStageResult) := do
    let haf ← env.hasActiveFlows
    if !haf then return none
    let fid? ← env.findMatchingFlow
    match fid? with
    | none => return none
    | some fid =>
      if fid == 0 then return none
      let r? ← env.executeFlow fid
      match r? with
      | some r => if !r.content.isEmpty then return some r else return none
      | none => return none
  match run with
  | .ok v => v
  | .error _ => none

/-- `DecisionEngine._try_configured_response`: guard on configured
responses, find a matching response, keep it only when its content is
truthy; any exception in the stage is caught and becomes `None`. -/
def tryConfiguredResponse (env : Env) : Option ConfiguredStageResult :=
  let run : Except (List Char) (Option ConfiguredStageResult) := do
    let hcr ← env.hasConfiguredResponses
    if !hcr then return none
    let r? ← env.findMatchingResponse
    match r? with
    | some r => if !r.content.isEmpty then return some r else return none
    | none => return none
  match run with
  | .ok v => v
  | .error _ => none

/-- `DecisionEngine._try_api_response`: guard on the api manager's
readiness, call `generate_response`, keep a truthy reply; any exception in
the stage (including one raised by the provider call) is caught and
becomes `None`.  Knowledge enrichment and the behaviour config only shape
the prompt handed to `generate_response`, which the abstract
`ApiManager.generateResponse` already accounts for. -/
def tryApiResponse (am : ApiManager) : Option (List Char) :=
  let run : Except (List Char) (Option (List Char)) := do
    if !am.isReady then return none
    let r? ← am.generateResponse
    match r? with
    | some r => if !r.isEmpty then return some r else return none
    | none => return none
  match run with
  | .ok v => v
  | .error _ => none

/-- `DecisionEngine._get_fallback_response`: a truthy configured general
error message when the lookup succeeds, else the hardcoded fallback
string (the lookup's exceptions are swallowed by `except: pass`). -/
def getFallbackResponse (env : Env) : List Char :=
  match env.getErrorMessage with
  | .ok m => if !m.isEmpty then m else chars "Désolé, je n'ai pas compris votre message. Pouvez-vous reformuler ?"
  | .error _ => chars "Désolé, je n'ai pas compris votre message. Pouvez-vous reformuler ?"

/-- The dictionary `DecisionEngine.get_response` returns (the `metadata`
entry, which merely echoes the winning stage's dictionary, is omitted). -/
structure EngineOutput where
  response : List Char
  source : List Char
  success : Bool
deriving Repr, DecidableEq

/-- The `except Exception` arm of `DecisionEngine.get_response`: every
exception that reaches the engine's own handler becomes the generic
please-retry output with source `error`. -/
def engineErrorOutput (_e : List Char) : EngineOutput where
  response := chars "Désolé, une erreur s'est produite. Veuillez réessayer."
  source := chars "error"
  success := false

/-- The body of `DecisionEngine.get_response` (the code inside its `try`):
flow stage, then configured stage, then — only when an api manager was
passed — the api stage, then the fallback.  Each stage helper catches its
own exceptions, so the body itself never raises; the result is still an
`Except` to mirror the `try`. -/
def getResponseBody (env : Env) : Except (List Char) EngineOutput := do
  match tryFlowResponse env with
  | some r => return ⟨r.content, chars "flow", true⟩
  | none =>
  match tryConfiguredResponse env with
  | some c => return ⟨c.content, chars "configured", true⟩
  | none =>
  match env.apiManager with
  | some am =>
    match tryApiResponse am with
    | some s => return ⟨s, chars "api", true⟩
    | none => return ⟨getFallbackResponse env, chars "fallback", false⟩
  | none => return ⟨getFallbackResponse env, chars "fallback", false⟩

/-- `DecisionEngine.get_response` of `app/decision_engine.py`: the body
under the engine-level exception handler (statistics counting is pure
bookkeeping and is not modelled). -/
def get_response (env : Env) : EngineOutput :=
  match getResponseBody env with
  | .ok out => out
  | .error e => engineErrorOutput e

/-- The `config` JSON of a `FlowNode`, with one optional entry per key the
executor reads (`config.get(...)` with its default happens at each use
site). -/
structure NodeConfig where
  message : Option (List Char) := none
  operator : Option (List Char) := none
  value : Option (List Char) := none
  varName : Option (List Char) := none
  actionType : Option (List Char) := none
  endpoint : Option (List Char) := none
  method : Option (List Char) := none
deriving Repr, DecidableEq

/-- A row of the `FlowNode` table. -/
structure FlowNode where
  id : Int
  nodeType : List Char
  positionX : Option ℚ := none
  positionY : Option ℚ := none
  config : NodeConfig := {}
deriving Repr, DecidableEq

/-- A row of the `NodeConnection` table: a directed edge. -/
structure NodeConnection where
  id : Int
  sourceNodeId : Int
  targetNodeId : Int
  condition : Option (List Char) := none
  priority : Int := 0
deriving Repr, DecidableEq

/-- A row of the `ConversationFlow` table with its owned nodes. -/
structure ConversationFlow where
  id : Int
  name : List Char
  isActive : Bool
  nodes : List FlowNode
deriving Repr, DecidableEq

/-- The flow-related tables: flows (each with its nodes) and the global
`NodeConnection` table in database order.  An unordered query returns rows
in this stored order; `order_by` sorts them. -/
structure FlowDb where
  flows : List ConversationFlow
  connections : List NodeConnection
deriving Repr, DecidableEq

/-- `FlowNode.query.get(node_id)`: the node with a given id, across all
flows. -/
def findNodeById (db : FlowDb) (i : Int) : Option FlowNode :=
  ((db.flows.map (fun f => f.nodes)).flatten).find? (fun n => n.id == i)

/-- The `FlowExecutionContext` of `app/flow_executor.py`. -/
structure FlowCtx where
  userId : Option Int
  userMessage : List Char
  vars : List (List Char × List Char) := []
  executionPath : List (Int × List Char) := []
  responseParts : List (List Char) := []
deriving Repr, DecidableEq

/-- `FlowExecutionContext.set_variable`: assignment into the variables
dictionary (update in place, or append a new key). -/
def setVar (vars : List (List Char × List Char)) (k v : List Char) :
    List (List Char × List Char) :=
  if vars.any (fun p => p.1 == k) then
    vars.map (fun p => if p.1 == k then (k, v) else p)
  else vars ++ [(k, v)]

/-- Characters matched by the `\w` of the `{variable}` substitution
pattern (ASCII scope: letters, digits, underscore). -/
def isWordChar (c : Char) : Bool := c.isAlphanum || c == '_'

/-- `FlowExecutor._replace_variables`: substitute every `{name}` whose
`name` is a known variable, leave unknown placeholders as written.  After
a substitution, `skip` counts the characters of the matched placeholder
still to be consumed. -/
def replaceVarsGo (vars : List (List Char × List Char)) (skip : Nat) :
    List Char → List Char
  | [] => []
  | c :: rest =>
    match skip with
    | s + 1 => replaceVarsGo vars s rest
    | 0 =>
      if c == '{' then
        let w := rest.takeWhile isWordChar
        if w.isEmpty then c :: replaceVarsGo vars 0 rest
        else
          match rest.drop w.length with
          | '}' :: _ =>
            (match vars.find? (fun p => p.1 == w) with
             | some p => p.2
             | none => '{' :: (w ++ ['}'])) ++
              replaceVarsGo vars (w.length + 1) rest
          | _ => c :: replaceVarsGo vars 0 rest
      else c :: replaceVarsGo vars 0 rest

/-- `FlowExecutor._replace_variables`. -/
def replaceVars (vars : List (List Char × List Char)) (text : List Char) :
    List Char :=
  replaceVarsGo vars 0 text

/-- A regular-expression search oracle standing for
`re.search(pattern, text, re.IGNORECASE)`: `none` models a malformed
pattern (`re.error`). -/
def RegexSearch : Type := List Char → List Char → Option Bool

/-- `FlowExecutor._evaluate_condition`: `equals`/`contains` compare the
normalized texts, `regex` consults the oracle on the raw texts (a
malformed pattern is a non-match), anything else is false. -/
def evaluateCondition (rs : RegexSearch) (text operator value : List Char) : Bool :=
  let tn := normalize_text text
  let vn := normalize_text value
  if operator == chars "equals" then tn == vn
  else if operator == chars "contains" then isSubstr vn tn
  else if operator == chars "regex" then (rs value text).getD false
  else false

/-- Stable insertion of a connection into a priority-ascending list. -/
def insertByPriority (c : NodeConnection) : List NodeConnection → List NodeConnection
  | [] => [c]
  | d :: rest =>
    if c.priority < d.priority then c :: d :: rest
    else d :: insertByPriority c rest

/-- The `order_by(NodeConnection.priority)` sort: stable, ascending. -/
def sortByPriority : List NodeConnection → List NodeConnection
  | [] => []
  | c :: rest => insertByPriority c (sortByPriority rest)

/-- The outgoing connections of a node in stored (unordered-query)
order: `NodeConnection.query.filter_by(source_node_id=node.id).all()`. -/
def outgoingConnections (db : FlowDb) (node : FlowNode) : List NodeConnection :=
  db.connections.filter (fun c => c.sourceNodeId == node.id)

/-- `FlowExecutor._find_next_node`: first outgoing connection after the
priority-ascending sort, then the target node lookup. -/
def findNextNode (db : FlowDb) (node : FlowNode) : Option FlowNode :=
  match sortByPriority (outgoingConnections db node) with
  | [] => none
  | c :: _ => findNodeById db c.targetNodeId

/-- `FlowExecutor._find_start_node`: first node with no incoming
connection, else the node with the smallest `position_y or 0` (Python
`min` keeps the first minimum). -/
def findStartNode (db : FlowDb) (flow : ConversationFlow) : Option FlowNode :=
  match flow.nodes with
  | [] => none
  | first :: rest =>
    let targets :=
      ((flow.nodes.map (fun n => (outgoingConnections db n).map
        (fun c => c.targetNodeId)))).flatten
    match flow.nodes.find? (fun n => !targets.contains n.id) with
    | some n => some n
    | none =>
      some (rest.foldl
        (fun best x =>
          if x.positionY.getD 0 < best.positionY.getD 0 then x else best)
        first)

/-- `FlowExecutor._execute_message_node`: append the node's message to the
response parts after variable substitution (skipped when the configured
message is empty). -/
def executeMessageNode (node : FlowNode) (ctx : FlowCtx) : FlowCtx :=
  let message := (node.config.message).getD []
  if message.isEmpty then ctx
  else { ctx with
    responseParts := ctx.responseParts ++ [replaceVars ctx.vars message] }

/-- `FlowExecutor._execute_input_node`: store the user message under the
configured variable name (default `user_input`). -/
def executeInputNode (node : FlowNode) (ctx : FlowCtx) : FlowCtx :=
  let name := (node.config.varName).getD (chars "user_input")
  { ctx with vars := setVar ctx.vars name ctx.userMessage }

/-- `FlowExecutor._execute_from_node`, embedded with a structural fuel
equal to `52 - depth` so that the kernel can evaluate concrete runs: the
source recursion increments `depth` by one per hop and aborts as soon as
`depth > 50`, so the fuel-zero branch is unreachable from the
`executeFromNode` wrapper (and agrees with the depth guard's result).
The `condition` arm inlines `_execute_condition_node`: outgoing
connections are fetched WITHOUT the priority sort, the walk follows the
first stored connection when the condition holds, and a false condition or
a missing target still returns success.  The other node types perform
their side effect (message, input; action/api are logged no-ops) and
proceed to `_find_next_node`. -/
def executeFromNodeAux (rs : RegexSearch) (db : FlowDb) :
    Nat → FlowNode → FlowCtx → Nat → Bool × FlowCtx
  | 0, _, ctx, _ => (false, ctx)
  | fuel + 1, node, ctx, depth =>
    if depth > 50 then (false, ctx)
    else
      let ctx := { ctx with
        executionPath := ctx.executionPath ++ [(node.id, node.nodeType)] }
      if node.nodeType == chars "condition" then
        let operator := (node.config.operator).getD (chars "equals")
        let value := (node.config.value).getD []
        let condResult := evaluateCondition rs ctx.userMessage operator value
        match outgoingConnections db node with
        | [] => (true, ctx)
        | c :: _ =>
          if condResult then
            match findNodeById db c.targetNodeId with
            | some nxt => executeFromNodeAux rs db fuel nxt ctx (depth + 1)
            | none => (true, ctx)
          else (true, ctx)
      else
        let ctx :=
          if node.nodeType == chars "message" then executeMessageNode node ctx
          else if node.nodeType == chars "input" then executeInputNode node ctx
          else ctx
        match findNextNode db node with
        | some nxt => executeFromNodeAux rs db fuel nxt ctx (depth + 1)
        | none => (true, ctx)

/-- `FlowExecutor._execute_from_node` at a given depth. -/
def executeFromNode (rs : RegexSearch) (db : FlowDb)
    (node : FlowNode) (ctx : FlowCtx) (depth : Nat) : Bool × FlowCtx :=
  executeFromNodeAux rs db (52 - depth) node ctx depth

/-- The dictionary `execute_flow` returns on success. -/
structure FlowExecResult where
  flowId : Int
  flowName : List Char
  content : List Char
  executionPath : List (Int × List Char)
  vars : List (List Char × List Char)
deriving Repr, DecidableEq

/-- `FlowExecutor.execute_flow` of `app/flow_executor.py`: load the flow,
reject a missing or inactive one, walk from the start node with a fresh
context, and return the joined response parts on success — `None` (and
never an error value) on any failure, including the depth-cap abort. -/
def execute_flow (rs : RegexSearch) (db : FlowDb) (flowId : Int)
    (userMessage : List Char) (userId : Option Int) : Option FlowExecResult :=
  match db.flows.find? (fun f => f.id == flowId) with
  | none => none
  | some flow =>
    if !flow.isActive then none
    else
      let ctx : FlowCtx := { userId := userId, userMessage := userMessage }
      match findStartNode db flow with
      | none => none
      | some start =>
        let (ok, ctx') := executeFromNode rs db start ctx 0
        if ok then
          some { flowId := flowId
                 flowName := flow.name
                 content := List.intercalate ['\n'] ctx'.responseParts
                 executionPath := ctx'.executionPath
                 vars := ctx'.vars }
        else none

/-- Python `str.lower` per character (non-ASCII lowercasing is modelled as
the identity, which is exact for the lowercase accented characters the
repository's texts use). -/
def pyLower (c : Char) : Char :=
  if c.toNat ≤ 127 then pyLowerAscii c else c

/-- Python `str.lower` on a string. -/
def lowerL (l : List Char) : List Char := l.map pyLower

/-- Characters matched by Python's Unicode `\w` as the keyword extractor
uses it (ASCII word characters; non-ASCII characters are treated as word
characters, which is exact for accented letters). -/
def isPyWordChar (c : Char) : Bool :=
  c.isAlphanum || c == '_' || decide (127 < c.toNat)

/-- The French stop-word set of `KnowledgeIntegrator.__init__`. -/
def stopWords : List (List Char) :=
  [chars "le", chars "la", chars "les", chars "un", chars "une", chars "des",
   chars "de", chars "du", chars "et", chars "ou", chars "mais", chars "donc",
   chars "or", chars "ni", chars "car", chars "à", chars "dans", chars "pour",
   chars "sur", chars "avec", chars "sans"]

/-- `KnowledgeIntegrator._extract_keywords`: lowercase, replace
non-word/non-space characters with spaces, split, drop stop words and
words of length ≤ 2. -/
def extractKeywords (text : List Char) : List (List Char) :=
  let cleaned := (lowerL text).map
    (fun c => if isPyWordChar c || isPySpace c then c else ' ')
  (splitWs cleaned).filter
    (fun w => !stopWords.contains w && decide (2 < w.length))

/-- Case-insensitive prefix test: `lp` is already lowered, the haystack is
lowered on the fly. -/
def startsCI : List Char → List Char → Bool
  | [], _ => true
  | _ :: _, [] => false
  | a :: as, b :: bs => a == pyLower b && startsCI as bs

/-- Python `str.count` (non-overlapping occurrences), scanning form:
after a match, `skip` counts the matched characters still to consume. -/
def countOccurGo (n : List Char) (skip : Nat) : List Char → Nat
  | [] => 0
  | c :: rest =>
    match skip with
    | s + 1 => countOccurGo n s rest
    | 0 =>
      if listStarts n (c :: rest) then 1 + countOccurGo n (n.length - 1) rest
      else countOccurGo n 0 rest

/-- Python `h.count(n)`. -/
def countOccur (n h : List Char) : Nat :=
  if n.isEmpty then h.length + 1 else countOccurGo n 0 h

/-- `KnowledgeIntegrator._calculate_relevance`: +1.0 per query word found
in the lowered content, plus `min(count * 0.1, 0.5)` when the word repeats,
+2.0 per candidate keyword that is among the (lowered) query words, and a
0.8 multiplier when the content exceeds 1000 characters. -/
def calculateRelevance (queryWords : List (List Char)) (content : List Char)
    (keywords : List (List Char)) : ℚ :=
  let contentLower := lowerL content
  let score1 : ℚ := queryWords.foldl
    (fun acc word =>
      if isSubstr word contentLower then
        let acc := acc + 1
        let count := countOccur word contentLower
        if 1 < count then acc + min ((count : ℚ) * (1 / 10)) (1 / 2) else acc
      else acc)
    0
  let score2 : ℚ := keywords.foldl
    (fun acc keyword =>
      if (queryWords.map lowerL).contains (lowerL keyword) then acc + 2
      else acc)
    score1
  if 1000 < content.length then score2 * (8 / 10) else score2

/-- A JSON value inside a rule's `condition_rules` mapping: a string, a
list of strings, or an integer. -/
inductive RuleCondValue where
  | s (v : List Char)
  | l (vs : List (List Char))
  | n (v : Int)
deriving Repr, DecidableEq

/-- A row of the `FAQ` table as the search reads it (`keyword_list` is the
decoded `keywords` JSON; `categoryName` is `category.name` or null). -/
structure FAQRow where
  id : Int
  question : List Char
  answer : List Char
  keywordList : List (List Char)
  categoryName : Option (List Char)
deriving Repr, DecidableEq

/-- A row of the `Document` table as the search reads it. -/
structure DocRow where
  id : Int
  title : List Char
  content : Option (List Char)
  categoryName : Option (List Char)
deriving Repr, DecidableEq

/-- A row of the `ResponseRule` table as the search reads it
(`conditionRules` is the decoded `conditions` JSON, an ordered mapping). -/
structure RuleRow where
  id : Int
  name : List Char
  conditionRules : List (List Char × RuleCondValue)
  responseTemplate : List Char
  priority : Int
  isActive : Bool
  categoryName : Option (List Char)
deriving Repr, DecidableEq

/-- The knowledge tables. -/
structure KnowledgeDb where
  faqs : List FAQRow
  rules : List RuleRow
  documents : List DocRow
deriving Repr, DecidableEq

/-- The loop of `KnowledgeIntegrator._check_rule_conditions`: each entry
must pass (implicit AND); a type clash that Python would raise out of the
method is `Except.error` (the `regex` arm alone swallows its own
exceptions with a bare `except`, returning a non-match). -/
def checkRuleCondsGo (rs : RegexSearch) (query queryLower : List Char) :
    List (List Char × RuleCondValue) → Except Unit Bool
  | [] => .ok true
  | (t, v) :: rest =>
    if t == chars "contains" then
      match v with
      | .l vs =>
        if vs.any (fun w => isSubstr (lowerL w) queryLower) then
          checkRuleCondsGo rs query queryLower rest
        else .ok false
      | .s sv =>
        if isSubstr (lowerL sv) queryLower then
          checkRuleCondsGo rs query queryLower rest
        else .ok false
      | .n _ => .error ()
    else if t == chars "regex" then
      match v with
      | .s p =>
        match rs p query with
        | some b =>
          if b then checkRuleCondsGo rs query queryLower rest else .ok false
        | none => .ok false
      | _ => .ok false
    else if t == chars "min_length" then
      match v with
      | .n k =>
        if (query.length : Int) < k then .ok false
        else checkRuleCondsGo rs query queryLower rest
      | _ => .error ()
    else checkRuleCondsGo rs query queryLower rest

/-- `KnowledgeIntegrator._check_rule_conditions`: an empty (or missing)
condition mapping fails outright; otherwise every condition must pass. -/
def checkRuleConditions (rs : RegexSearch) (query : List Char)
    (conditions : List (List Char × RuleCondValue)) : Except Unit Bool :=
  if conditions.isEmpty then .ok false
  else checkRuleCondsGo rs query (lowerL query) conditions

/-- An item of the `faqs` list `search_knowledge` returns. -/
structure FaqItem where
  id : Int
  question : List Char
  answer : List Char
  categoryName : Option (List Char)
  score : ℚ
  keywords : List (List Char)
deriving Repr, DecidableEq

/-- An item of the `rules` list `search_knowledge` returns.  The source
dictionary has NO `score` key (only `priority`), so `item.get('score', 0)`
yields 0 for every rule item. -/
structure RuleItem where
  id : Int
  name : List Char
  template : List Char
  priority : Int
  categoryName : Option (List Char)
deriving Repr, DecidableEq

/-- `item.get('score', 0)` on a rule item: the dictionary has no such key. -/
def ruleItemScore (_ : RuleItem) : ℚ := 0

/-- An item of the `documents` list `search_knowledge` returns. -/
structure DocItem where
  id : Int
  title : List Char
  excerpt : List Char
  categoryName : Option (List Char)
  score : ℚ
deriving Repr, DecidableEq

/-- Stable insertion into a score-descending list (Python `list.sort` with
`reverse=True` is stable, so an earlier element precedes later ones of
equal key). -/
def insertDescBy (key : α → ℚ) (x : α) : List α → List α
  | [] => [x]
  | y :: rest =>
    if key y ≤ key x then x :: y :: rest else y :: insertDescBy key x rest

/-- Stable descending sort by a rational key. -/
def sortDescBy (key : α → ℚ) : List α → List α
  | [] => []
  | x :: rest => insertDescBy key x (sortDescBy key rest)

/-- First index of `n` in `h` (Python `str.find`, `none` for -1). -/
def findSubAt (n : List Char) : List Char → Nat → Option Nat
  | [], i => if n.isEmpty then some i else none
  | c :: rest, i =>
    if listStarts n (c :: rest) then some i else findSubAt n rest (i + 1)

/-- `KnowledgeIntegrator._extract_excerpt`: a window of up to 200
characters around the first keyword occurrence, with ellipses on clipped
ends. -/
def extractExcerpt (content : List Char) (keywords : List (List Char)) :
    List Char :=
  if content.isEmpty then []
  else
    let contentLower := lowerL content
    let bestPosition := keywords.foldl
      (fun best keyword =>
        match findSubAt (lowerL keyword) contentLower 0 with
        | some pos => if pos < best then pos else best
        | none => best)
      content.length
    let bestPosition := if bestPosition == content.length then 0 else bestPosition
    let start := bestPosition - 50
    let stop := min content.length (bestPosition + 200 - 50)
    let excerpt := (content.drop start).take (stop - start)
    let excerpt := if 0 < start then chars "..." ++ excerpt else excerpt
    if stop < content.length then excerpt ++ chars "..." else excerpt

/-- `KnowledgeIntegrator._search_faqs`: score every FAQ over
`question + " " + answer` with its keyword list, keep positive scores,
sort descending, truncate. -/
def searchFaqs (kdb : KnowledgeDb) (query : List Char) (limit : Nat) :
    List FaqItem :=
  let queryWords := extractKeywords query
  let scored := kdb.faqs.filterMap
    (fun f =>
      let score := calculateRelevance queryWords
        (f.question ++ chars " " ++ f.answer) f.keywordList
      if 0 < score then
        some { id := f.id, question := f.question, answer := f.answer,
               categoryName := f.categoryName, score := score,
               keywords := f.keywordList }
      else none)
  (sortDescBy (fun x => x.score) scored).take limit

/-- The dictionary appended for an applicable rule (id, name, template,
priority, category — and no `score` key). -/
def ruleItemOfRow (r : RuleRow) : RuleItem where
  id := r.id
  name := r.name
  template := r.responseTemplate
  priority := r.priority
  categoryName := r.categoryName

/-- One iteration of the `_search_rules` loop: check the rule's
conditions, append its item when they pass. -/
def searchRulesStep (rs : RegexSearch) (query : List Char)
    (acc : List RuleItem) (r : RuleRow) : Except Unit (List RuleItem) := do
  let ok ← checkRuleConditions rs query r.conditionRules
  if ok then return acc ++ [ruleItemOfRow r] else return acc

/-- `KnowledgeIntegrator._search_rules`: keep the active rules whose
conditions all pass, sort by priority descending, truncate; an exception
escaping a condition check makes the whole search return `[]`. -/
def searchRules (rs : RegexSearch) (kdb : KnowledgeDb) (query : List Char)
    (limit : Nat) : List RuleItem :=
  let run : Except Unit (List RuleItem) := do
    let applicable ← (kdb.rules.filter (fun r => r.isActive)).foldlM
      (searchRulesStep rs query) []
    return (sortDescBy (fun x => ((x.priority : ℚ))) applicable).take limit
  match run with
  | .ok v => v
  | .error _ => []

/-- `KnowledgeIntegrator._search_documents`: score documents with truthy
content over `title + " " + content`, no keyword list, keep positive
scores, sort descending, truncate. -/
def searchDocuments (kdb : KnowledgeDb) (query : List Char) (limit : Nat) :
    List DocItem :=
  let queryWords := extractKeywords query
  let scored := kdb.documents.filterMap
    (fun d =>
      match d.content with
      | some content =>
        if content.isEmpty then none
        else
          let score := calculateRelevance queryWords
            (d.title ++ chars " " ++ content) []
          if 0 < score then
            some { id := d.id, title := d.title,
                   excerpt := extractExcerpt content queryWords,
                   categoryName := d.categoryName, score := score }
          else none
      | none => none)
  (sortDescBy (fun x => x.score) scored).take limit

/-- The dictionary `search_knowledge` returns. -/
structure KnowledgeResults where
  faqs : List FaqItem
  rules : List RuleItem
  documents : List DocItem
  relevanceScore : ℚ
  hasKnowledge : Bool
deriving Repr, DecidableEq

/-- `KnowledgeIntegrator.search_knowledge` of `app/knowledge_integrator.py`:
the three searches, a global relevance score summing `item.get('score', 0)`
over every returned item, and `has_knowledge = total_score > 0`. -/
def search_knowledge (rs : RegexSearch) (kdb : KnowledgeDb) (query : List Char)
    (maxResults : Nat) : KnowledgeResults :=
  let faqs := searchFaqs kdb query maxResults
  let rules := searchRules rs kdb query maxResults
  let documents := searchDocuments kdb query maxResults
  let totalScore : ℚ :=
    (faqs.map (fun x => x.score)).sum +
    (rules.map ruleItemScore).sum +
    (documents.map (fun x => x.score)).sum
  { faqs := faqs, rules := rules, documents := documents,
    relevanceScore := totalScore, hasKnowledge := decide (0 < totalScore) }

/-- The denylist of `ContextBuilder.post_process_response`
(`app/context_builder.py`): all entries are French (plus the French-worded
"Je suis Claude/ChatGPT"); no English phrasing appears. -/
def genericPhrases : List (List Char) :=
  [chars "Je suis une assistante virtuelle",
   chars "Je suis un assistant virtuel",
   chars "Je suis une IA",
   chars "Je suis Claude",
   chars "Je suis ChatGPT",
   chars "Je suis un modèle de langage",
   chars "assistante virtuelle conçue pour",
   chars "assistant virtuel conçu pour",
   chars "assistante virtuelle spécialisée",
   chars "assistant virtuel spécialisé"]

/-- The `correct_identity` replacement sentence:
`f"Je suis {bot_info['name']}. {bot_info['description']}"`. -/
def correctIdentity (botInfo : BotInfo) : List Char :=
  chars "Je suis " ++ botInfo.name ++ chars ". " ++ botInfo.description

/-- `re.sub(re.escape(phrase), repl, text, flags=re.IGNORECASE)` for a
literal `phrase` (given pre-lowered as `lp`): replace every
case-insensitive, non-overlapping occurrence left to right.  After a
match, `skip` counts matched characters still to consume. -/
def replaceCIGo (lp repl : List Char) (skip : Nat) : List Char → List Char
  | [] => []
  | c :: rest =>
    match skip with
    | s + 1 => replaceCIGo lp repl s rest
    | 0 =>
      if startsCI lp (c :: rest) then
        repl ++ replaceCIGo lp repl (lp.length - 1) rest
      else c :: replaceCIGo lp repl 0 rest

/-- Case-insensitive replace-all of a literal phrase. -/
def replaceCI (phrase repl text : List Char) : List Char :=
  replaceCIGo (lowerL phrase) repl 0 text

/-- `ContextBuilder.post_process_response` of `app/context_builder.py`:
scan the denylist in order; at the FIRST phrase occurring
(case-insensitively) in the reply, substitute the identity sentence for
all its occurrences and stop (`break`); with no match the reply is
returned unchanged. -/
def post_process_response (response : List Char) (botInfo : BotInfo) :
    List Char :=
  let responseLower := lowerL response
  match genericPhrases.find? (fun p => isSubstr (lowerL p) responseLower) with
  | none => response
  | some phrase => replaceCI phrase (correctIdentity botInfo) response

/-- Length of the `[^.!?]*[.!?]?` tail a pattern of
`post_process_api_response` consumes after its literal part: everything up
to a sentence terminator, plus the terminator when present. -/
def sentenceTailLen (l : List Char) : Nat :=
  let k := (l.takeWhile (fun c => !(c == '.' || c == '!' || c == '?'))).length
  match l.drop k with
  | c :: _ => if c == '.' || c == '!' || c == '?' then k + 1 else k
  | [] => k

/-- `re.sub(lit + "[^.!?]*[.!?]?", repl, text, re.IGNORECASE)` when `cut`
holds, plain literal replace-all otherwise (`lp` is the lowered literal). -/
def replacePatGo (lp : List Char) (cut : Bool) (repl : List Char)
    (skip : Nat) : List Char → List Char
  | [] => []
  | c :: rest =>
    match skip with
    | s + 1 => replacePatGo lp cut repl s rest
    | 0 =>
      if startsCI lp (c :: rest) then
        let consumed :=
          lp.length + (if cut then sentenceTailLen ((c :: rest).drop lp.length) else 0)
        repl ++ replacePatGo lp cut repl (consumed - 1) rest
      else c :: replacePatGo lp cut repl 0 rest

/-- The ordered replacements dictionary of `post_process_api_response`
(`app/routes.py`): literal part, whether the pattern eats the rest of the
sentence, and the replacement — all patterns are French. -/
def apiReplacements (botInfo : BotInfo) :
    List (List Char × Bool × List Char) :=
  [(chars "je suis une assistante virtuelle", true, correctIdentity botInfo),
   (chars "je suis un assistant virtuel", true, correctIdentity botInfo),
   (chars "je suis une ia", true, chars "Je suis " ++ botInfo.name),
   (chars "je suis claude", true, chars "Je suis " ++ botInfo.name),
   (chars "je suis chatgpt", true, chars "Je suis " ++ botInfo.name),
   (chars "assistante virtuelle spécialisée", false, botInfo.name),
   (chars "assistant virtuel spécialisé", false, botInfo.name),
   (chars "en tant qu'assistante virtuelle", false,
    chars "en tant que " ++ botInfo.name),
   (chars "en tant qu'assistant virtuel", false,
    chars "en tant que " ++ botInfo.name)]

/-- `post_process_api_response` of `app/routes.py`: apply every pattern's
replace-all in dictionary order. -/
def post_process_api_response (responseText : List Char) (botInfo : BotInfo) :
    List Char :=
  (apiReplacements botInfo).foldl
    (fun text pat => replacePatGo (lowerL pat.1) pat.2.1 pat.2.2 0 text)
    responseText

/-!
Theorems.  Each claim Cn of the specification gets one theorem (plus a
witness instantiation when the theorem carries hypotheses, and a
counterexample when the claim required correction).
-/

/-- C1: `DecisionEngine.get_response` resolves sources in strict priority
order with short-circuiting: a flow result with non-empty content wins
(source `flow`) regardless of the configured stage — in particular a
message matching both an active flow and a configured response gets the
flow result; otherwise a configured result with non-empty content wins
(source `configured`); only then is the API stage tried (source `api`);
and when every stage misses the configured-or-hardcoded fallback message
is returned (source `fallback`). -/
theorem decision_engine_priority_order (env : Env) :
    (∀ r, tryFlowResponse env = some r →
      get_response env = ⟨r.content, chars "flow", true⟩) ∧
    (∀ c, tryFlowResponse env = none → tryConfiguredResponse env = some c →
      get_response env = ⟨c.content, chars "configured", true⟩) ∧
    (∀ am s, tryFlowResponse env = none → tryConfiguredResponse env = none →
      env.apiManager = some am → tryApiResponse am = some s →
      get_response env = ⟨s, chars "api", true⟩) ∧
    (tryFlowResponse env = none → tryConfiguredResponse env = none →
      (∀ am, env.apiManager = some am → tryApiResponse am = none) →
      get_response env = ⟨getFallbackResponse env, chars "fallback", false⟩) ∧
    (∀ fid r, env.hasActiveFlows = .ok true →
      env.findMatchingFlow = .ok (some fid) → (fid == 0) = false →
      env.executeFlow fid = .ok (some r) → r.content.isEmpty = false →
      get_response env = ⟨r.content, chars "flow", true⟩) := by
  have flowCase : ∀ r, tryFlowResponse env = some r →
      get_response env = ⟨r.content, chars "flow", true⟩ := by
    intro r h
    simp [get_response, getResponseBody, h, pure, Except.pure]
  refine ⟨flowCase, ?_, ?_, ?_, ?_⟩
  · intro c h1 h2
    simp [get_response, getResponseBody, h1, h2, pure, Except.pure]
  · intro am s h1 h2 h3 h4
    simp [get_response, getResponseBody, h1, h2, h3, h4, pure, Except.pure]
  · intro h1 h2 h3
    cases ham : env.apiManager with
    | none => simp [get_response, getResponseBody, h1, h2, ham, pure, Except.pure]
    | some am =>
      simp [get_response, getResponseBody, h1, h2, ham, h3 am ham, pure, Except.pure]
  · intro fid r h1 h2 h3 h4 h5
    apply flowCase
    simp [tryFlowResponse, h1, h2, h3, h4, h5, Bind.bind, Except.bind, pure,
      Except.pure]

/-- Witness for C1: a concrete environment where the flow yields
"Bienvenue" and a configured response also matches; the engine returns the
flow result. -/
def envFlowWins : Env where
  hasActiveFlows := .ok true
  findMatchingFlow := .ok (some 1)
  executeFlow := fun _ => .ok (some ⟨1, chars "accueil", chars "Bienvenue"⟩)
  hasConfiguredResponses := .ok true
  findMatchingResponse := .ok (some ⟨chars "Réponse configurée", 9 / 10⟩)
  apiManager := none
  getErrorMessage := .ok (chars "")

/-- Witness instantiating C1 at `envFlowWins`. -/
theorem decision_engine_priority_order_witness :
    get_response envFlowWins =
      ⟨chars "Bienvenue", chars "flow", true⟩ :=
  (decision_engine_priority_order envFlowWins).2.2.2.2 1
    ⟨1, chars "accueil", chars "Bienvenue"⟩ rfl rfl (by decide) rfl (by decide)

/-- An environment whose flow stage raises while a configured response
matches: the exception is swallowed inside `_try_flow_response` and the
engine falls through. -/
def envStageRaises : Env where
  hasActiveFlows := .ok true
  findMatchingFlow := .ok (some 1)
  executeFlow := fun _ => .error (chars "database failure")
  hasConfiguredResponses := .ok true
  findMatchingResponse := .ok (some ⟨chars "Bonjour", 9 / 10⟩)
  apiManager := none
  getErrorMessage := .ok (chars "")

/-- Counterexample to C7 as stated: an exception IS raised inside the
pipeline (the flow stage's `execute_flow` call), yet `get_response`
returns source `configured` with the configured content — not source
`error` with the please-retry message. -/
theorem decision_engine_error_source_counterexample :
    envStageRaises.executeFlow 1 = .error (chars "database failure") ∧
    get_response envStageRaises =
      ⟨chars "Bonjour", chars "configured", true⟩ ∧
    (get_response envStageRaises).source ≠ chars "error" :=
  ⟨rfl, by decide, by decide⟩

/-- C7 (amended): `get_response` never lets an exception propagate — for
every environment, including ones whose collaborator calls raise, it
returns a well-formed output whose source is one of `flow`, `configured`,
`api`, `fallback`; an exception raised inside a stage is caught within
that stage and treated as a miss (falling through), and only an exception
reaching the engine's own top-level handler is converted to the generic
please-retry output with source `error`. -/
theorem decision_engine_never_propagates (env : Env) :
    (∀ e, env.hasActiveFlows = .error e → tryFlowResponse env = none) ∧
    (∀ e, env.findMatchingFlow = .error e → tryFlowResponse env = none) ∧
    (∀ e fid, env.hasActiveFlows = .ok true →
      env.findMatchingFlow = .ok (some fid) → (fid == 0) = false →
      env.executeFlow fid = .error e → tryFlowResponse env = none) ∧
    (∀ e, env.hasConfiguredResponses = .error e →
      tryConfiguredResponse env = none) ∧
    (∀ e, env.findMatchingResponse = .error e →
      tryConfiguredResponse env = none) ∧
    (∀ am e, am.generateResponse = .error e → tryApiResponse am = none) ∧
    ((get_response env).source = chars "flow" ∨
     (get_response env).source = chars "configured" ∨
     (get_response env).source = chars "api" ∨
     (get_response env).source = chars "fallback") ∧
    (∀ e, engineErrorOutput e =
      ⟨chars "Désolé, une erreur s'est produite. Veuillez réessayer.",
       chars "error", false⟩) := by
  refine ⟨?_, ?_, ?_, ?_, ?_, ?_, ?_, fun _ => rfl⟩
  · intro e h
    simp [tryFlowResponse, h, Bind.bind, Except.bind]
  · intro e h
    cases haf : env.hasActiveFlows with
    | error e' => simp [tryFlowResponse, haf, Bind.bind, Except.bind]
    | ok b =>
      cases b with
      | false => simp [tryFlowResponse, haf, Bind.bind, Except.bind, pure, Except.pure]
      | true => simp [tryFlowResponse, haf, h, Bind.bind, Except.bind, pure, Except.pure]
  · intro e fid h1 h2 h3 h4
    simp [tryFlowResponse, h1, h2, h3, h4, Bind.bind, Except.bind, pure, Except.pure]
  · intro e h
    simp [tryConfiguredResponse, h, Bind.bind, Except.bind]
  · intro e h
    cases hcr : env.hasConfiguredResponses with
    | error e' => simp [tryConfiguredResponse, hcr, Bind.bind, Except.bind]
    | ok b =>
      cases b with
      | false =>
        simp [tryConfiguredResponse, hcr, Bind.bind, Except.bind, pure, Except.pure]
      | true =>
        simp [tryConfiguredResponse, hcr, h, Bind.bind, Except.bind, pure, Except.pure]
  · intro am e h
    cases hr : am.isReady with
    | false => simp [tryApiResponse, hr, Bind.bind, Except.bind, pure, Except.pure]
    | true => simp [tryApiResponse, hr, h, Bind.bind, Except.bind, pure, Except.pure]
  · unfold get_response getResponseBody
    cases tryFlowResponse env with
    | some r => simp [pure, Except.pure]
    | none =>
      cases tryConfiguredResponse env with
      | some c => simp [pure, Except.pure]
      | none =>
        cases env.apiManager with
        | none => simp [pure, Except.pure]
        | some am =>
          cases hapi : tryApiResponse am with
          | some s => simp [hapi, pure, Except.pure]
          | none => simp [hapi, pure, Except.pure]

/-- An environment in which every collaborator call raises. -/
def envAllRaise : Env where
  hasActiveFlows := .error (chars "boom")
  findMatchingFlow := .error (chars "boom")
  executeFlow := fun _ => .error (chars "boom")
  hasConfiguredResponses := .error (chars "boom")
  findMatchingResponse := .error (chars "boom")
  apiManager := some ⟨true, chars "openai", .error (chars "boom")⟩
  getErrorMessage := .error (chars "boom")

/-- Witness instantiating the amended C7 at `envAllRaise`: the raising
stages are all treated as misses and the output degrades to the hardcoded
fallback. -/
theorem decision_engine_never_propagates_witness :
    tryFlowResponse envAllRaise = none ∧
    tryConfiguredResponse envAllRaise = none ∧
    ((get_response envAllRaise).source = chars "flow" ∨
     (get_response envAllRaise).source = chars "configured" ∨
     (get_response envAllRaise).source = chars "api" ∨
     (get_response envAllRaise).source = chars "fallback") :=
  ⟨(decision_engine_never_propagates envAllRaise).1 (chars "boom") rfl,
   (decision_engine_never_propagates envAllRaise).2.2.2.1 (chars "boom") rfl,
   (decision_engine_never_propagates envAllRaise).2.2.2.2.2.2.1⟩

/-- Executing a message node leaves the execution path unchanged. -/
theorem executeMessageNode_path (node : FlowNode) (ctx : FlowCtx) :
    (executeMessageNode node ctx).executionPath = ctx.executionPath := by
  simp [executeMessageNode, apply_ite (FlowCtx.executionPath)]

/-- Executing an input node leaves the execution path unchanged. -/
theorem executeInputNode_path (node : FlowNode) (ctx : FlowCtx) :
    (executeInputNode node ctx).executionPath = ctx.executionPath := rfl

/-- The node walk grows the execution path by at most `51 - depth`
entries: each hop appends one entry and increments `depth`, and the guard
kills any call with `depth > 50`. -/
theorem executeFromNodeAux_path_le (rs : RegexSearch) (db : FlowDb) :
    ∀ (fuel : Nat) (node : FlowNode) (ctx : FlowCtx) (depth : Nat),
      ((executeFromNodeAux rs db fuel node ctx depth).2).executionPath.length ≤
        ctx.executionPath.length + (51 - depth) := by
  intro fuel
  induction fuel with
  | zero =>
    intro node ctx depth
    simp [executeFromNodeAux]
  | succ fuel ih =>
    intro node ctx depth
    rw [executeFromNodeAux]
    by_cases hd : 50 < depth
    · simp [hd]
    · simp only [hd, if_false]
      split
      · split
        · simp; omega
        · split
          · split
            · refine le_trans (ih _ _ (depth + 1)) ?_
              simp; omega
            · simp; omega
          · simp; omega
      · split
        · refine le_trans (ih _ _ (depth + 1)) ?_
          simp [apply_ite (FlowCtx.executionPath), executeMessageNode_path,
            executeInputNode_path]
          omega
        · simp [apply_ite (FlowCtx.executionPath), executeMessageNode_path,
            executeInputNode_path]
          omega

/-- C2: for every flow graph — cyclic ones included, since the embedding
quantifies over arbitrary connection tables — `execute_flow` terminates
(it is a total function) and visits at most 51 nodes: every successful
result's execution path has length ≤ 51; the walk aborts with failure as
soon as the depth counter exceeds 50 (visiting nothing further); and an
aborted walk makes `execute_flow` return `None` — "no flow response" —
never a user-visible error value. -/
theorem flow_execution_depth_cap :
    (∀ (rs : RegexSearch) (db : FlowDb) (fid : Int) (msg : List Char)
        (uid : Option Int) (r : FlowExecResult),
      execute_flow rs db fid msg uid = some r →
      r.executionPath.length ≤ 51) ∧
    (∀ (rs : RegexSearch) (db : FlowDb) (node : FlowNode) (ctx : FlowCtx)
        (depth : Nat), 50 < depth →
      executeFromNode rs db node ctx depth = (false, ctx)) ∧
    (∀ (rs : RegexSearch) (db : FlowDb) (fid : Int) (msg : List Char)
        (uid : Option Int) (flow : ConversationFlow) (start : FlowNode),
      db.flows.find? (fun f => f.id == fid) = some flow →
      findStartNode db flow = some start →
      (executeFromNode rs db start { userId := uid, userMessage := msg } 0).1 = false →
      execute_flow rs db fid msg uid = none) := by
  refine ⟨?_, ?_, ?_⟩
  · intro rs db fid msg uid r h
    rw [execute_flow] at h
    cases hfind : db.flows.find? (fun f => f.id == fid) with
    | none => rw [hfind] at h; exact absurd h (by simp)
    | some flow =>
      rw [hfind] at h
      by_cases hact : flow.isActive
      · simp only [hact, Bool.not_true, if_false] at h
        cases hstart : findStartNode db flow with
        | none => rw [hstart] at h; exact absurd h (by simp)
        | some start =>
          rw [hstart] at h
          dsimp only at h
          rcases hw : executeFromNode rs db start
              { userId := uid, userMessage := msg } 0 with ⟨ok, ctx'⟩
          rw [hw] at h
          cases ok with
          | false => exact absurd h (by simp)
          | true =>
            simp only [if_true] at h
            have hb := executeFromNodeAux_path_le rs db 52 start
              { userId := uid, userMessage := msg } 0
            rw [show executeFromNodeAux rs db 52 start
                { userId := uid, userMessage := msg } 0 =
              executeFromNode rs db start { userId := uid, userMessage := msg } 0
              from rfl, hw] at hb
            cases h
            simpa using hb
      · simp only [hact] at h
        exact absurd h (by simp)
  · intro rs db node ctx depth hd
    unfold executeFromNode
    rcases Nat.lt_or_ge depth 52 with h52 | h52
    · have : 52 - depth = 1 := by omega
      rw [this, executeFromNodeAux]
      simp [hd]
    · have : 52 - depth = 0 := by omega
      rw [this, executeFromNodeAux]
  · intro rs db fid msg uid flow start hfind hstart hfalse
    rw [execute_flow, hfind]
    by_cases hact : flow.isActive
    · simp only [hact, Bool.not_true, if_false]
      rw [hstart]
      dsimp only
      rcases hw : executeFromNode rs db start
          { userId := uid, userMessage := msg } 0 with ⟨ok, ctx'⟩
      rw [hw] at hfalse
      simp at hfalse
      rw [hfalse]
      simp
    · simp [hact]

/-- A regex oracle that never matches (no witness flow uses a `regex`
condition). -/
def rsFalse : RegexSearch := fun _ _ => some false

/-- A single message node. -/
def msgNode : FlowNode :=
  { id := 1, nodeType := chars "message",
    config := { message := some (chars "Bienvenue") } }

/-- A one-node flow with no connections. -/
def dbSimple : FlowDb :=
  { flows := [{ id := 1, name := chars "accueil", isActive := true,
                nodes := [msgNode] }],
    connections := [] }

/-- A one-node flow whose only connection is a self-loop: a cyclic
graph. -/
def dbCyclic : FlowDb :=
  { flows := [{ id := 1, name := chars "boucle", isActive := true,
                nodes := [msgNode] }],
    connections := [{ id := 1, sourceNodeId := 1, targetNodeId := 1 }] }

/-- Witness instantiating C2: the simple flow succeeds within the bound,
a call at depth 51 aborts, and the cyclic flow's aborted walk surfaces as
`None`. -/
theorem flow_execution_depth_cap_witness :
    (execute_flow rsFalse dbSimple 1 (chars "salut") none =
      some { flowId := 1, flowName := chars "accueil",
             content := chars "Bienvenue",
             executionPath := [(1, chars "message")], vars := [] } ∧
     (({ flowId := 1, flowName := chars "accueil",
         content := chars "Bienvenue",
         executionPath := [(1, chars "message")], vars := [] } :
        FlowExecResult)).executionPath.length ≤ 51) ∧
    executeFromNode rsFalse dbCyclic msgNode
      { userId := none, userMessage := chars "salut" } 51 =
      (false, { userId := none, userMessage := chars "salut" }) ∧
    execute_flow rsFalse dbCyclic 1 (chars "salut") none = none :=
  ⟨⟨by decide,
    flow_execution_depth_cap.1 rsFalse dbSimple 1 (chars "salut") none _ (by decide)⟩,
   flow_execution_depth_cap.2.1 rsFalse dbCyclic msgNode
     { userId := none, userMessage := chars "salut" } 51 (by decide),
   flow_execution_depth_cap.2.2 rsFalse dbCyclic 1 (chars "salut") none _ msgNode
     rfl rfl (by decide)⟩

/-- A condition node testing `contains "prix"`. -/
def nCond : FlowNode :=
  { id := 1, nodeType := chars "condition",
    config := { operator := some (chars "contains"), value := some (chars "prix") } }

/-- The target of the stored-first (priority 5) edge. -/
def nHigh : FlowNode :=
  { id := 2, nodeType := chars "message",
    config := { message := some (chars "HIGH") } }

/-- The target of the lowest-priority (priority 1) edge. -/
def nLow : FlowNode :=
  { id := 3, nodeType := chars "message",
    config := { message := some (chars "LOW") } }

/-- A flow whose condition node has two outgoing connections, stored with
the priority-5 edge (to node 2) before the priority-1 edge (to node 3). -/
def dbCond : FlowDb :=
  { flows := [{ id := 1, name := chars "prix", isActive := true,
                nodes := [nCond, nHigh, nLow] }],
    connections :=
      [{ id := 1, sourceNodeId := 1, targetNodeId := 2, priority := 5 },
       { id := 2, sourceNodeId := 1, targetNodeId := 3, priority := 1 }] }

/-- Counterexample to C3 as stated: the condition holds, the
priority-ascending-first edge targets node 3, yet the executed path goes
through node 2 — the target of the first STORED connection — and the
response is node 2's message. -/
theorem condition_priority_counterexample :
    evaluateCondition rsFalse (chars "quel est le prix") (chars "contains")
      (chars "prix") = true ∧
    (sortByPriority (outgoingConnections dbCond nCond)).head?.map
      (fun c => c.targetNodeId) = some 3 ∧
    (outgoingConnections dbCond nCond).head?.map
      (fun c => c.targetNodeId) = some 2 ∧
    (execute_flow rsFalse dbCond 1 (chars "quel est le prix") none).map
      (fun r => r.executionPath) =
      some [(1, chars "condition"), (2, chars "message")] ∧
    (execute_flow rsFalse dbCond 1 (chars "quel est le prix") none).map
      (fun r => r.content) = some (chars "HIGH") := by
  refine ⟨by decide, by decide, by decide, by decide, by decide⟩

/-- C3 (amended): when a condition node evaluates to true, the executor
follows the first outgoing connection in the stored (unordered-query)
order of the `NodeConnection` table — `_execute_condition_node` performs
no `order_by(priority)`; the priority-ascending ordering is applied only
by `_find_next_node` for non-condition transitions. -/
theorem condition_follows_stored_first (rs : RegexSearch) (db : FlowDb)
    (node : FlowNode) (ctx : FlowCtx) (depth : Nat) (c : NodeConnection)
    (cs : List NodeConnection) (nxt : FlowNode)
    (hType : node.nodeType = chars "condition")
    (hCond : evaluateCondition rs ctx.userMessage
      ((node.config.operator).getD (chars "equals"))
      ((node.config.value).getD []) = true)
    (hConns : outgoingConnections db node = c :: cs)
    (hNxt : findNodeById db c.targetNodeId = some nxt)
    (hDepth : depth ≤ 50) :
    executeFromNode rs db node ctx depth =
      executeFromNode rs db nxt
        { ctx with executionPath := ctx.executionPath ++ [(node.id, node.nodeType)] }
        (depth + 1) := by
  unfold executeFromNode
  have hf : 52 - depth = (51 - depth) + 1 := by omega
  have hf2 : 52 - (depth + 1) = 51 - depth := by omega
  rw [hf, hf2, executeFromNodeAux]
  have hd : ¬ 50 < depth := by omega
  simp only [hd, if_false]
  simp [hType, hCond, hConns, hNxt]

/-- Witness instantiating the amended C3 on the two-edge condition flow:
the walk proceeds to node 2, the stored-first target. -/
theorem condition_follows_stored_first_witness :
    executeFromNode rsFalse dbCond nCond
      { userId := none, userMessage := chars "quel est le prix" } 0 =
      executeFromNode rsFalse dbCond nHigh
        { userId := none, userMessage := chars "quel est le prix",
          executionPath := [] ++ [(1, chars "condition")] } 1 :=
  condition_follows_stored_first rsFalse dbCond nCond
    { userId := none, userMessage := chars "quel est le prix" } 0
    { id := 1, sourceNodeId := 1, targetNodeId := 2, priority := 5 }
    [{ id := 2, sourceNodeId := 1, targetNodeId := 3, priority := 1 }] nHigh
    rfl (by decide) rfl rfl (by decide)

/-- A Settings row belonging to user A (id 1) only. -/
def rowUserA : SettingsRow :=
  { userId := some 1, botName := some (chars "Alice"),
    botDescription := some (chars "Conseillere boutique"),
    botWelcome := none, botAvatar := none }

/-- A Settings table holding rows for user A only — no global row. -/
def dbOnlyA : List SettingsRow := [rowUserA]

/-- A row for user B whose `bot_name` is null. -/
def rowBNoName : SettingsRow :=
  { userId := some 2, botName := none,
    botDescription := some (chars "Desc B"),
    botWelcome := none, botAvatar := none }

/-- The global Settings row (`user_id` null). -/
def rowGlobal : SettingsRow :=
  { userId := none, botName := some (chars "Globo"),
    botDescription := some (chars "Desc G"),
    botWelcome := some (chars "Salut"), botAvatar := none }

/-- A table with a named-less user row and a global row. -/
def dbMixed : List SettingsRow := [rowBNoName, rowGlobal]

/-- Counterexample to C5 as stated: when rows exist for user A only there
is no global row, and `get_bot_info(user_id=B)` returns user A's values
(name "Alice") through the first-row fallback — NOT "the global row's
values, not user A's" as the claim asserts.  Moreover the claim's
unconditional chain (spec-modelled `get_bot_info_claimed`) disagrees with
the source on a user row whose `bot_name` is null: the source skips it
for the global row. -/
theorem bot_info_fallback_counterexample :
    (∀ r ∈ dbOnlyA, r.userId ≠ none) ∧
    get_bot_info dbOnlyA (some 2) = botDataOfRow rowUserA ∧
    (get_bot_info dbOnlyA (some 2)).name = chars "Alice" ∧
    get_bot_info dbMixed (some 2) = botDataOfRow rowGlobal ∧
    get_bot_info_claimed dbMixed (some 2) ≠ get_bot_info dbMixed (some 2) := by
  refine ⟨by decide, by decide, by decide, by decide, by decide⟩

/-- C5 (amended): bot identity resolution follows the chain — the
user-specific row, but only when its `bot_name` is non-empty; else the
global (`user_id` null) row; else the first row found; else the hardcoded
"Assistant" default.  In particular a user B with no row gets the global
row's values when a global row exists; when rows exist for user A only
(no global row), B gets user A's row's values via the first-row
fallback. -/
theorem bot_info_fallback_chain (rows : List SettingsRow) (u : Int) (hu : u ≠ 0) :
    (∀ r, rows.find? (fun x => x.userId == some u) = some r →
      truthyStr r.botName = true →
      get_bot_info rows (some u) = botDataOfRow r) ∧
    ((∀ r, rows.find? (fun x => x.userId == some u) = some r →
        truthyStr r.botName = false) →
      ∀ g, rows.find? (fun x => x.userId == none) = some g →
        get_bot_info rows (some u) = botDataOfRow g) ∧
    ((∀ r, rows.find? (fun x => x.userId == some u) = some r →
        truthyStr r.botName = false) →
      rows.find? (fun x => x.userId == none) = none →
      ∀ rfirst, rows.head? = some rfirst →
        get_bot_info rows (some u) = botDataOfRow rfirst) ∧
    (rows = [] → get_bot_info rows (some u) = botDataDefault) := by
  have hu' : (u != 0) = true := by simpa using hu
  refine ⟨?_, ?_, ?_, ?_⟩
  · intro r hfind hname
    simp [get_bot_info, hu', hfind, hname]
  · intro hmiss g hg
    cases hfind : rows.find? (fun x => x.userId == some u) with
    | none => simp [get_bot_info, hu', hfind, hg]
    | some r =>
      have := hmiss r hfind
      simp [get_bot_info, hu', hfind, this, hg]
  · intro hmiss hglob rfirst hfirst
    cases hfind : rows.find? (fun x => x.userId == some u) with
    | none => simp [get_bot_info, hu', hfind, hglob, hfirst]
    | some r =>
      have := hmiss r hfind
      simp [get_bot_info, hu', hfind, this, hglob, hfirst]
  · intro h
    subst h
    simp [get_bot_info]

/-- Witness instantiating the amended C5: user B's row has no name, so B
receives the global row's values. -/
theorem bot_info_fallback_chain_witness :
    get_bot_info dbMixed (some 2) = botDataOfRow rowGlobal :=
  (bot_info_fallback_chain dbMixed 2 (by decide)).2.1
    (by decide) rowGlobal (by decide)

/-- The contribution a single trigger makes to the score, as the spec
describes it: 1.0 on a full normalized substring match, else
(matching words / trigger words) * 0.7. -/
def triggerContribution (message trigger : List Char) : ℚ :=
  let tn := normalize_text trigger
  if isSubstr tn message then 1
  else
    let tw := distinct (splitWs tn)
    let matching := tw.filter (fun w => (distinct (splitWs message)).contains w)
    ((matching.length : ℚ) / (tw.length : ℚ)) * (7 / 10)

/-- Every per-trigger contribution lies in [0, 1]. -/
theorem triggerContribution_bounds (m t : List Char) :
    0 ≤ triggerContribution m t ∧ triggerContribution m t ≤ 1 := by
  unfold triggerContribution
  by_cases hsub : isSubstr (normalize_text t) m
  · simp [hsub]
  · simp only [hsub, if_false, Bool.false_eq_true]
    set tw := distinct (splitWs (normalize_text t)) with htw
    set matching := tw.filter (fun w => (distinct (splitWs m)).contains w) with hm
    have hle : matching.length ≤ tw.length := List.length_filter_le _ _
    rcases Nat.eq_zero_or_pos tw.length with h0 | hpos
    · have : matching.length = 0 := by omega
      simp [h0, this]
    · have hb : (0 : ℚ) < (tw.length : ℚ) := by exact_mod_cast hpos
      have h1 : (0 : ℚ) ≤ (matching.length : ℚ) / (tw.length : ℚ) :=
        div_nonneg (by positivity) (le_of_lt hb)
      have h2 : (matching.length : ℚ) / (tw.length : ℚ) ≤ 1 := by
        rw [div_le_one hb]
        exact_mod_cast hle
      constructor
      · positivity
      · calc (matching.length : ℚ) / (tw.length : ℚ) * (7 / 10)
            ≤ 1 * (7 / 10) := by nlinarith
          _ ≤ 1 := by norm_num

/-- The scoring loop accumulates exactly the per-trigger contributions. -/
theorem trigger_foldl_eq_sum (message : List Char) :
    ∀ (ts : List (List Char)) (acc : ℚ),
      ts.foldl
        (fun acc trigger =>
          let tn := normalize_text trigger
          if isSubstr tn message then acc + 1
          else
            let tw := distinct (splitWs tn)
            let matching := tw.filter
              (fun w => (distinct (splitWs message)).contains w)
            if matching.isEmpty then acc
            else acc + ((matching.length : ℚ) / (tw.length : ℚ)) * (7 / 10))
        acc =
      acc + (ts.map (triggerContribution message)).sum := by
  intro ts
  induction ts with
  | nil => intro acc; simp
  | cons t ts ih =>
    intro acc
    rw [List.foldl_cons, ih, List.map_cons, List.sum_cons]
    have hstep : (let tn := normalize_text t
        if isSubstr tn message then acc + 1
        else
          let tw := distinct (splitWs tn)
          let matching := tw.filter
            (fun w => (distinct (splitWs message)).contains w)
          if matching.isEmpty then acc
          else acc + ((matching.length : ℚ) / (tw.length : ℚ)) * (7 / 10)) =
        acc + triggerContribution message t := by
      unfold triggerContribution
      dsimp only
      by_cases hsub : isSubstr (normalize_text t) message
      · simp [hsub]
      · simp only [hsub, if_false, Bool.false_eq_true]
        by_cases hempty : (distinct (splitWs (normalize_text t))).filter
            (fun w => (distinct (splitWs message)).contains w) = []
        · simp [hempty, List.isEmpty_iff]
          tauto
        · have : ((distinct (splitWs (normalize_text t))).filter
              (fun w => (distinct (splitWs message)).contains w)).isEmpty = false := by
            simpa [List.isEmpty_iff] using hempty
          simp [this]
          tauto
    rw [hstep]
    ring

/-- C6: for every message and trigger list the trigger score lies in
[0.0, 1.0]; the score of any message against an empty trigger list is 0;
and on a non-empty trigger list the score is the mean per-trigger
contribution (full normalized substring match 1.0, partial word overlap
(matching words / trigger words) * 0.7), capped at 1.0. -/
theorem trigger_score_bounds :
    (∀ (message : List Char) (triggers : List (List Char)),
      0 ≤ calculateTriggerScore message triggers ∧
      calculateTriggerScore message triggers ≤ 1) ∧
    (∀ message : List Char, calculateTriggerScore message [] = 0) ∧
    (∀ (message : List Char) (triggers : List (List Char)), triggers ≠ [] →
      calculateTriggerScore message triggers =
        min ((triggers.map (triggerContribution message)).sum /
          (triggers.length : ℚ)) 1) := by
  have hform : ∀ (message : List Char) (triggers : List (List Char)),
      triggers ≠ [] →
      calculateTriggerScore message triggers =
        min ((triggers.map (triggerContribution message)).sum /
          (triggers.length : ℚ)) 1 := by
    intro message triggers hne
    unfold calculateTriggerScore
    have hemp : triggers.isEmpty = false := by
      simpa [List.isEmpty_iff] using hne
    simp only [hemp, Bool.false_eq_true, if_false]
    rw [trigger_foldl_eq_sum message triggers 0]
    simp
  refine ⟨?_, ?_, hform⟩
  · intro message triggers
    rcases eq_or_ne triggers [] with h | h
    · subst h; simp [calculateTriggerScore]
    · rw [hform message triggers h]
      have hn : (0 : ℚ) < (triggers.length : ℚ) := by
        have : 0 < triggers.length := List.length_pos.mpr h
        exact_mod_cast this
      have hnonneg : 0 ≤ (triggers.map (triggerContribution message)).sum := by
        apply List.sum_nonneg
        intro x hx
        rcases List.mem_map.mp hx with ⟨t, _, rfl⟩
        exact (triggerContribution_bounds message t).1
      constructor
      · exact le_min (div_nonneg hnonneg hn.le) (by norm_num)
      · exact min_le_right _ _
  · intro message
    simp [calculateTriggerScore]


/-- Witness instantiating C6 on concrete messages and triggers. -/
theorem trigger_score_bounds_witness :
    (0 ≤ calculateTriggerScore (chars "bonjour tout le monde")
        [chars "bonjour"] ∧
     calculateTriggerScore (chars "bonjour tout le monde")
        [chars "bonjour"] ≤ 1) ∧
    calculateTriggerScore (chars "bonjour") [] = 0 ∧
    calculateTriggerScore (chars "quelles sont vos heures d ouverture")
        [chars "horaires", chars "heures ouverture"] =
      min (([chars "horaires", chars "heures ouverture"].map
        (triggerContribution (chars "quelles sont vos heures d ouverture"))).sum /
        (([chars "horaires", chars "heures ouverture"] :
          List (List Char)).length : ℚ)) 1 :=
  ⟨trigger_score_bounds.1 (chars "bonjour tout le monde") [chars "bonjour"],
   trigger_score_bounds.2.1 (chars "bonjour"),
   trigger_score_bounds.2.2 (chars "quelles sont vos heures d ouverture")
     [chars "horaires", chars "heures ouverture"] (by decide)⟩

/-- Insertion into a sorted-descending list adds no new elements. -/
theorem mem_insertDescBy {α : Type} (key : α → ℚ) (a x : α) :
    ∀ l : List α, x ∈ insertDescBy key a l → x = a ∨ x ∈ l := by
  intro l
  induction l with
  | nil => simp [insertDescBy]
  | cons y rest ih =>
    simp only [insertDescBy]
    split
    · intro h
      rcases List.mem_cons.mp h with h | h
      · exact Or.inl h
      · exact Or.inr h
    · intro h
      rcases List.mem_cons.mp h with h | h
      · exact Or.inr (by simp [h])
      · rcases ih h with h | h
        · exact Or.inl h
        · exact Or.inr (List.mem_cons_of_mem _ h)

/-- The descending sort adds no new elements. -/
theorem mem_sortDescBy {α : Type} (key : α → ℚ) (x : α) :
    ∀ l : List α, x ∈ sortDescBy key l → x ∈ l := by
  intro l
  induction l with
  | nil => simp [sortDescBy]
  | cons y rest ih =>
    intro h
    rcases mem_insertDescBy key y x _ h with h | h
    · simp [h]
    · exact List.mem_cons_of_mem _ (ih h)

/-- Every FAQ item the search returns has a strictly positive score
(`if score > 0` filter). -/
theorem searchFaqs_score_pos (kdb : KnowledgeDb) (query : List Char)
    (limit : Nat) (x : FaqItem) (hx : x ∈ searchFaqs kdb query limit) :
    0 < x.score := by
  unfold searchFaqs at hx
  have hx2 := mem_sortDescBy _ x _ (List.take_subset _ _ hx)
  rcases List.mem_filterMap.mp hx2 with ⟨f, _, hf⟩
  dsimp only at hf
  split at hf
  · rename_i hpos
    simp only [Option.some.injEq] at hf
    subst hf
    exact hpos
  · exact absurd hf (by simp)

/-- Every document item the search returns has a strictly positive
score. -/
theorem searchDocuments_score_pos (kdb : KnowledgeDb) (query : List Char)
    (limit : Nat) (x : DocItem) (hx : x ∈ searchDocuments kdb query limit) :
    0 < x.score := by
  unfold searchDocuments at hx
  have hx2 := mem_sortDescBy _ x _ (List.take_subset _ _ hx)
  rcases List.mem_filterMap.mp hx2 with ⟨d, _, hf⟩
  cases hc : d.content with
  | none => rw [hc] at hf; exact absurd hf (by simp)
  | some content =>
    rw [hc] at hf
    dsimp only at hf
    split at hf
    · exact absurd hf (by simp)
    · split at hf
      · rename_i hpos
        simp only [Option.some.injEq] at hf
        subst hf
        exact hpos
      · exact absurd hf (by simp)

/-- Rule items contribute nothing to the relevance sum: their dictionary
has no `score` key. -/
theorem rulesScore_sum_zero : ∀ l : List RuleItem, (l.map ruleItemScore).sum = 0 := by
  intro l
  induction l with
  | nil => simp
  | cons x rest ih => simp [ruleItemScore, ih]

/-- C8: the top-level `relevance_score` equals the sum of the per-item
scores over the three returned categories — rule items, having no `score`
key, contribute `item.get('score', 0) = 0` each — and `has_knowledge`
holds exactly when that sum is strictly positive, equivalently exactly
when some FAQ or document item was returned. -/
theorem search_knowledge_relevance (rs : RegexSearch) (kdb : KnowledgeDb)
    (query : List Char) (maxResults : Nat) :
    (search_knowledge rs kdb query maxResults).relevanceScore =
      ((search_knowledge rs kdb query maxResults).faqs.map (fun x => x.score)).sum +
      ((search_knowledge rs kdb query maxResults).rules.map ruleItemScore).sum +
      ((search_knowledge rs kdb query maxResults).documents.map (fun x => x.score)).sum ∧
    ((search_knowledge rs kdb query maxResults).hasKnowledge = true ↔
      0 < (search_knowledge rs kdb query maxResults).relevanceScore) ∧
    ((search_knowledge rs kdb query maxResults).hasKnowledge = true ↔
      ((search_knowledge rs kdb query maxResults).faqs ≠ [] ∨
       (search_knowledge rs kdb query maxResults).documents ≠ [])) := by
  have hiff : (search_knowledge rs kdb query maxResults).hasKnowledge = true ↔
      0 < (search_knowledge rs kdb query maxResults).relevanceScore := by
    simp [search_knowledge]
  refine ⟨rfl, hiff, hiff.trans ?_⟩
  show 0 < ((searchFaqs kdb query maxResults).map (fun x => x.score)).sum +
      ((searchRules rs kdb query maxResults).map ruleItemScore).sum +
      ((searchDocuments kdb query maxResults).map (fun x => x.score)).sum ↔ _
  rw [rulesScore_sum_zero]
  have hfn : 0 ≤ ((searchFaqs kdb query maxResults).map (fun x => x.score)).sum := by
    apply List.sum_nonneg
    intro a ha
    rcases List.mem_map.mp ha with ⟨it, hit, rfl⟩
    exact le_of_lt (searchFaqs_score_pos kdb query maxResults it hit)
  have hdn : 0 ≤ ((searchDocuments kdb query maxResults).map (fun x => x.score)).sum := by
    apply List.sum_nonneg
    intro a ha
    rcases List.mem_map.mp ha with ⟨it, hit, rfl⟩
    exact le_of_lt (searchDocuments_score_pos kdb query maxResults it hit)
  constructor
  · intro hpos
    by_contra hcon
    push_neg at hcon
    rcases hcon with ⟨hfe, hde⟩
    have hfe' : searchFaqs kdb query maxResults = [] := hfe
    have hde' : searchDocuments kdb query maxResults = [] := hde
    rw [hfe', hde'] at hpos
    simp at hpos
  · intro h
    rcases h with h | h
    · have : 0 < ((searchFaqs kdb query maxResults).map (fun x => x.score)).sum := by
        apply List.sum_pos
        · intro a ha
          rcases List.mem_map.mp ha with ⟨it, hit, rfl⟩
          exact searchFaqs_score_pos kdb query maxResults it hit
        · simpa using (h : searchFaqs kdb query maxResults ≠ [])
      linarith
    · have : 0 < ((searchDocuments kdb query maxResults).map (fun x => x.score)).sum := by
        apply List.sum_pos
        · intro a ha
          rcases List.mem_map.mp ha with ⟨it, hit, rfl⟩
          exact searchDocuments_score_pos kdb query maxResults it hit
        · simpa using (h : searchDocuments kdb query maxResults ≠ [])
      linarith

/-- Every item the rules fold accumulates comes from the accumulator or
from a rule whose condition check succeeded. -/
theorem searchRules_mem (rs : RegexSearch) (query : List Char) :
    ∀ (rules : List RuleRow) (acc out : List RuleItem),
      rules.foldlM (searchRulesStep rs query) acc = .ok out →
      ∀ x ∈ out, x ∈ acc ∨ ∃ r ∈ rules,
        checkRuleConditions rs query r.conditionRules = .ok true ∧
        x = ruleItemOfRow r := by
  intro rules
  induction rules with
  | nil =>
    intro acc out h x hx
    simp only [List.foldlM_nil, pure, Except.pure, Except.ok.injEq] at h
    subst h
    exact Or.inl hx
  | cons r rules ih =>
    intro acc out h x hx
    rw [List.foldlM_cons] at h
    cases hchk : checkRuleConditions rs query r.conditionRules with
    | error e =>
      rw [show searchRulesStep rs query acc r = .error e by
        simp [searchRulesStep, hchk, Bind.bind, Except.bind]] at h
      simp [Bind.bind, Except.bind] at h
    | ok b =>
      cases b with
      | true =>
        rw [show searchRulesStep rs query acc r = .ok (acc ++ [ruleItemOfRow r]) by
          simp [searchRulesStep, hchk, Bind.bind, Except.bind, pure, Except.pure]] at h
        simp only [Bind.bind, Except.bind] at h
        rcases ih _ _ h x hx with hin | ⟨r', hr', hc, hx'⟩
        · rcases List.mem_append.mp hin with h1 | h1
          · exact Or.inl h1
          · refine Or.inr ⟨r, List.mem_cons_self r rules, hchk, ?_⟩
            simpa using h1
        · exact Or.inr ⟨r', List.mem_cons_of_mem r hr', hc, hx'⟩
      | false =>
        rw [show searchRulesStep rs query acc r = .ok acc by
          simp [searchRulesStep, hchk, Bind.bind, Except.bind, pure, Except.pure]] at h
        simp only [Bind.bind, Except.bind] at h
        rcases ih _ _ h x hx with hin | ⟨r', hr', hc, hx'⟩
        · exact Or.inl hin
        · exact Or.inr ⟨r', List.mem_cons_of_mem r hr', hc, hx'⟩

/-- C10: a `ResponseRule` whose `condition_rules` mapping is empty (or
missing, which decodes to the empty mapping) is never eligible — the
condition check returns False on an empty condition set rather than
vacuously True — and every rule item in the knowledge search results
comes from an active rule with a non-empty condition set that passed its
check. -/
theorem rule_empty_conditions_never_eligible :
    (∀ (rs : RegexSearch) (query : List Char),
      checkRuleConditions rs query [] = .ok false) ∧
    (∀ (rs : RegexSearch) (kdb : KnowledgeDb) (query : List Char)
        (maxResults : Nat) (item : RuleItem),
      item ∈ (search_knowledge rs kdb query maxResults).rules →
      ∃ r ∈ kdb.rules, r.isActive = true ∧
        checkRuleConditions rs query r.conditionRules = .ok true ∧
        r.conditionRules ≠ [] ∧ item = ruleItemOfRow r) := by
  constructor
  · intro rs query
    rfl
  · intro rs kdb query maxResults item hitem
    have hmemS : item ∈ searchRules rs kdb query maxResults := hitem
    unfold searchRules at hmemS
    cases hfold : (kdb.rules.filter (fun r => r.isActive)).foldlM
        (searchRulesStep rs query) [] with
    | error e =>
      rw [hfold] at hmemS
      simp [Bind.bind, Except.bind] at hmemS
    | ok applicable =>
      rw [hfold] at hmemS
      simp only [Bind.bind, Except.bind, pure, Except.pure] at hmemS
      have hmem := mem_sortDescBy _ item _ (List.take_subset _ _ hmemS)
      rcases searchRules_mem rs query _ [] applicable hfold item hmem with h | ⟨r, hr, hchk, hx⟩
      · simp at h
      · have hrr := List.mem_filter.mp hr
        refine ⟨r, hrr.1, by simpa using hrr.2, hchk, ?_, hx⟩
        intro hempty
        rw [hempty] at hchk
        simp [checkRuleConditions] at hchk

/-- A rule whose condition mapping is empty. -/
def emptyCondRule : RuleRow :=
  { id := 1, name := chars "vide", conditionRules := [],
    responseTemplate := chars "T1", priority := 9, isActive := true,
    categoryName := none }

/-- A rule with a satisfiable `contains` condition. -/
def ruleWithConds : RuleRow :=
  { id := 2, name := chars "prix",
    conditionRules := [(chars "contains", RuleCondValue.s (chars "prix"))],
    responseTemplate := chars "T2", priority := 1, isActive := true,
    categoryName := none }

/-- A knowledge base with one FAQ and the two rules above. -/
def kdbWitness : KnowledgeDb :=
  { faqs := [{ id := 1, question := chars "Quels sont vos horaires",
               answer := chars "Nous ouvrons a 9h",
               keywordList := [chars "horaires"], categoryName := none }],
    rules := [emptyCondRule, ruleWithConds],
    documents := [] }

/-- Witness instantiating C8 on the concrete knowledge base. -/
theorem search_knowledge_relevance_witness :
    (search_knowledge rsFalse kdbWitness (chars "le prix") 3).hasKnowledge = true ↔
      0 < (search_knowledge rsFalse kdbWitness (chars "le prix") 3).relevanceScore :=
  (search_knowledge_relevance rsFalse kdbWitness (chars "le prix") 3).2.1

/-- Witness instantiating C10: the empty-condition check fails, and the
one returned rule item stems from the rule with a non-empty, passing
condition set. -/
theorem rule_empty_conditions_never_eligible_witness :
    checkRuleConditions rsFalse (chars "le prix") [] = .ok false ∧
    (∃ r ∈ kdbWitness.rules, r.isActive = true ∧
      checkRuleConditions rsFalse (chars "le prix") r.conditionRules = .ok true ∧
      r.conditionRules ≠ [] ∧ ruleItemOfRow ruleWithConds = ruleItemOfRow r) :=
  ⟨rule_empty_conditions_never_eligible.1 rsFalse (chars "le prix"),
   rule_empty_conditions_never_eligible.2 rsFalse kdbWitness (chars "le prix") 3
     (ruleItemOfRow ruleWithConds) (by decide)⟩

/-- `listStarts` decides list prefixing. -/
theorem listStarts_iff (n : List Char) : ∀ h, listStarts n h = true ↔ n <+: h := by
  induction n with
  | nil => intro h; simp [listStarts]
  | cons a as ih =>
    intro h
    cases h with
    | nil => simp [listStarts]
    | cons b bs =>
      simp only [listStarts, Bool.and_eq_true, beq_iff_eq, List.cons_prefix_cons, ih]

/-- `isSubstr` decides the contiguous-substring (infix) relation. -/
theorem isSubstr_iff (n : List Char) : ∀ h, isSubstr n h = true ↔ n <:+: h := by
  intro h
  induction h with
  | nil => simp [isSubstr, List.isEmpty_iff]
  | cons c rest ih =>
    simp only [isSubstr, Bool.or_eq_true, listStarts_iff, ih, List.infix_cons_iff]

/-- A case-insensitive prefix test equals the plain prefix test against
the lowered haystack. -/
theorem startsCI_eq_listStarts (lp : List Char) :
    ∀ h, startsCI lp h = listStarts lp (lowerL h) := by
  induction lp with
  | nil => intro h; cases h <;> rfl
  | cons a as ih =>
    intro h
    cases h with
    | nil => rfl
    | cons b bs => simp [startsCI, listStarts, lowerL, ih]

/-- A list is a substring of itself followed by anything. -/
theorem isSubstr_self_append (n z : List Char) : isSubstr n (n ++ z) = true := by
  rw [isSubstr_iff]
  exact ⟨[], z, by simp⟩

/-- When the (lowered, non-empty) phrase occurs in the lowered text, the
replace-all scan emits the replacement somewhere in its output. -/
theorem replaceCIGo_contains (lp repl : List Char) (hlp : lp ≠ []) :
    ∀ text, isSubstr lp (lowerL text) = true →
      isSubstr repl (replaceCIGo lp repl 0 text) = true := by
  intro text
  induction text with
  | nil =>
    intro h
    simp [lowerL, isSubstr, List.isEmpty_iff, hlp] at h
  | cons c rest ih =>
    intro h
    rw [replaceCIGo]
    by_cases hstart : startsCI lp (c :: rest)
    · simp only [hstart, if_true]
      exact isSubstr_self_append repl _
    · simp only [hstart, if_false, Bool.false_eq_true]
      have hlow : lowerL (c :: rest) = pyLower c :: lowerL rest := rfl
      have hsub : isSubstr lp (lowerL rest) = true := by
        rw [hlow, isSubstr] at h
        rcases Bool.or_eq_true_iff.mp h with h1 | h1
        · exfalso
          rw [startsCI_eq_listStarts, hlow] at hstart
          exact hstart h1
        · exact h1
      rw [isSubstr, Bool.or_eq_true_iff]
      exact Or.inr (ih hsub)

/-- A configured bot identity. -/
def biLuna : BotInfo :=
  { name := chars "Luna", description := chars "Je vends des fleurs.",
    welcome := [], avatar := [] }

/-- The English reply of the claim: this phrasing appears in NO entry of
the denylist, which is entirely French. -/
def engReply : List Char := chars "I am a virtual assistant designed to help"

/-- Counterexample to C4 as stated: a reply containing "I am a virtual
assistant designed to help" is returned UNCHANGED by both
`post_process_response` and `post_process_api_response` (their denylists
are French-only), so the result does not contain the configured bot
name. -/
theorem identity_postprocess_counterexample :
    post_process_response engReply biLuna = engReply ∧
    post_process_api_response engReply biLuna = engReply ∧
    isSubstr (chars "Luna") (post_process_response engReply biLuna) = false := by
  refine ⟨by decide, by decide, by decide⟩

/-- C4 (amended): the denylist is French-only, so an English generic
reply passes through unchanged (no denylisted phrase occurs); whenever
some phrase of the actual denylist occurs case-insensitively in the
reply, `post_process_response` yields a string containing the inserted
identity sentence `Je suis {name}. {description}` and hence the
configured bot name.  Only the first matching phrase is replaced
(`break`), so other denylisted phrases — including any inside the
configured description itself — may remain. -/
theorem identity_postprocess_corrects (botInfo : BotInfo) (response : List Char) :
    (genericPhrases.find? (fun p => isSubstr (lowerL p) (lowerL response)) = none →
      post_process_response response botInfo = response) ∧
    ((∃ p ∈ genericPhrases, isSubstr (lowerL p) (lowerL response) = true) →
      isSubstr (correctIdentity botInfo)
        (post_process_response response botInfo) = true ∧
      isSubstr botInfo.name (post_process_response response botInfo) = true) := by
  constructor
  · intro hnone
    simp [post_process_response, hnone]
  · intro hex
    have hne : ∀ p ∈ genericPhrases, p ≠ [] := by decide
    have hsome : (genericPhrases.find?
        (fun p => isSubstr (lowerL p) (lowerL response))).isSome := by
      rw [List.find?_isSome]
      rcases hex with ⟨p, hp, hps⟩
      exact ⟨p, hp, hps⟩
    rcases Option.isSome_iff_exists.mp hsome with ⟨q, hq⟩
    have hqmem : q ∈ genericPhrases := List.mem_of_find?_eq_some hq
    have hqsub : isSubstr (lowerL q) (lowerL response) = true := by
      have := List.find?_some hq
      simpa using this
    have hqne : lowerL q ≠ [] := by
      have := hne q hqmem
      simpa [lowerL] using this
    have hout : post_process_response response botInfo =
        replaceCIGo (lowerL q) (correctIdentity botInfo) 0 response := by
      simp [post_process_response, hq, replaceCI]
    have hcontains : isSubstr (correctIdentity botInfo)
        (post_process_response response botInfo) = true := by
      rw [hout]
      exact replaceCIGo_contains (lowerL q) (correctIdentity botInfo) hqne
        response hqsub
    refine ⟨hcontains, ?_⟩
    rw [isSubstr_iff] at hcontains ⊢
    have hnameIn : botInfo.name <:+: correctIdentity botInfo :=
      ⟨chars "Je suis ", chars ". " ++ botInfo.description, by
        simp [correctIdentity]⟩
    exact hnameIn.trans hcontains

/-- A reply carrying an actual (French) denylisted phrase. -/
def frReply : List Char :=
  chars "Bonjour, je suis un assistant virtuel conçu pour aider."

/-- C4 (amended): the denylist is French-only, so an English generic
reply passes through unchanged (no denylisted phrase occurs); whenever
some phrase of the actual denylist occurs case-insensitively in the
reply, `post_process_response` yields a string containing the inserted
identity sentence `Je suis {name}. {description}` and hence the
configured bot name.  Only the first matching phrase is replaced
(`break`), so other denylisted phrases — including any inside the
configured description itself — may remain. -/
theorem identity_postprocess_corrects_witness :
    isSubstr (correctIdentity biLuna) (post_process_response frReply biLuna) = true ∧
    isSubstr (chars "Luna") (post_process_response frReply biLuna) = true :=
  (identity_postprocess_corrects biLuna frReply).2
    ⟨chars "Je suis un assistant virtuel", by decide, by decide⟩

/-- Characters a normalized text may contain. -/
def goodChar (c : Char) : Bool := isLowerAlnum c || c == ' '

def NoTwoSpaces (a b : Char) : Prop := ¬(a = ' ' ∧ b = ' ')

/-- Normal form of `normalize_text` outputs. -/
def NormalForm (l : List Char) : Prop :=
  (∀ c ∈ l, goodChar c = true) ∧ l.Chain' NoTwoSpaces ∧
  (∀ c, l.head? = some c → c ≠ ' ') ∧ (∀ c, l.getLast? = some c → c ≠ ' ')

/-- A normalized character is a lowercase letter, a digit, or a space. -/
theorem good_ranges (c : Char) (h : goodChar c = true) :
    (97 ≤ c.toNat ∧ c.toNat ≤ 122) ∨ (48 ≤ c.toNat ∧ c.toNat ≤ 57) ∨
    c.toNat = 32 := by
  simp only [goodChar, isLowerAlnum, Bool.or_eq_true, Bool.and_eq_true,
    decide_eq_true_eq, beq_iff_eq] at h
  rcases h with (h | h) | h
  · exact Or.inl h
  · exact Or.inr (Or.inl h)
  · subst h; exact Or.inr (Or.inr rfl)

/-- Normalized characters are ASCII and fixed by lowercasing, hence fixed
by the lower-NFKD-ASCII stage regardless of the decomposition table. -/
theorem good_foldAscii (fold : Char → List Char) (c : Char)
    (h : goodChar c = true) : foldAscii fold c = [c] := by
  have hr := good_ranges c h
  have h127 : c.toNat ≤ 127 := by omega
  have hup : ¬(65 ≤ c.toNat ∧ c.toNat ≤ 90) := by omega
  simp [foldAscii, pyLowerAscii, h127, hup]

/-- The only whitespace among normalized characters is the plain space. -/
theorem good_space (c : Char) (hg : goodChar c = true)
    (hs : isPySpace c = true) : c = ' ' := by
  simp only [isPySpace, Bool.or_eq_true, beq_iff_eq] at hs
  rcases hs with ((((h | h) | h) | h) | h) | h
  · exact h
  all_goals (subst h; exact absurd hg (by decide))

/-- A normalized character other than a space is no whitespace at all. -/
theorem good_not_space (c : Char) (hg : goodChar c = true) (hne : c ≠ ' ') :
    isPySpace c = false := by
  by_contra hcon
  exact hne (good_space c hg (by simpa using hcon))

/-- Flattening a pointwise-singleton map is the identity. -/
theorem flatten_map_singleton {α : Type} (f : α → List α) :
    ∀ l : List α, (∀ c ∈ l, f c = [c]) → (l.map f).flatten = l := by
  intro l
  induction l with
  | nil => intro _; rfl
  | cons a t ih =>
    intro h
    simp only [List.map_cons, List.flatten_cons, h a (List.mem_cons_self a t)]
    rw [ih (fun c hc => h c (List.mem_cons_of_mem a hc))]
    rfl

/-- Normalized characters survive the scrub untouched. -/
theorem good_keep (c : Char) (h : goodChar c = true) :
    (isLowerAlnum c || isPySpace c) = true := by
  rcases good_ranges c h with h1 | h1 | h1
  · simp [isLowerAlnum]; omega
  · simp [isLowerAlnum]; omega
  · have hc : c = ' ' := by
      have h2 := Char.ofNat_toNat c
      rw [h1] at h2
      exact h2.symm
    subst hc
    decide

/-- The scrub fixes strings of normalized characters. -/
theorem scrub_id : ∀ l : List Char, (∀ c ∈ l, goodChar c = true) →
    scrub l = l := by
  intro l
  induction l with
  | nil => intro _; rfl
  | cons c t ih =>
    intro h
    have hc := good_keep c (h c (List.mem_cons_self c t))
    simp only [scrub, List.map_cons, hc, if_true]
    have := ih (fun d hd => h d (List.mem_cons_of_mem c hd))
    simp only [scrub] at this
    rw [this]

/-- Whitespace collapsing fixes a normalized string (no two adjacent
spaces; with `prev` set it additionally must not start with a space). -/
theorem collapseWs_id : ∀ l : List Char,
    (∀ c ∈ l, goodChar c = true) → l.Chain' NoTwoSpaces →
    collapseWs l false = l ∧
    ((∀ c, l.head? = some c → c ≠ ' ') → collapseWs l true = l) := by
  intro l
  induction l with
  | nil => intro _ _; exact ⟨rfl, fun _ => rfl⟩
  | cons c rest ih =>
    intro hg hch
    have hgrest : ∀ d ∈ rest, goodChar d = true :=
      fun d hd => hg d (List.mem_cons_of_mem c hd)
    have hchc := List.chain'_cons'.mp hch
    have ihr := ih hgrest hchc.2
    by_cases hsp : isPySpace c = true
    · have hc : c = ' ' := good_space c (hg c (List.mem_cons_self c rest)) hsp
      subst hc
      have hheadrest : ∀ d, rest.head? = some d → d ≠ ' ' := by
        intro d hd
        have := hchc.1 d hd
        simp [NoTwoSpaces] at this
        exact this
      constructor
      · rw [collapseWs]
        simp only [hsp, if_true, Bool.true_eq_false, if_false]
        rw [ihr.2 hheadrest]
        simp
      · intro hhead
        exact absurd rfl (hhead ' ' rfl)
    · have hspf : isPySpace c = false := by simpa using hsp
      constructor
      · rw [collapseWs]
        simp only [hspf, Bool.false_eq_true, if_false]
        rw [ihr.1]
      · intro _
        rw [collapseWs]
        simp only [hspf, Bool.false_eq_true, if_false]
        rw [ihr.1]

/-- `dropWhile` fixes a list whose head fails the predicate. -/
theorem dropWhile_id_of_head {p : Char → Bool} : ∀ l : List Char,
    (∀ c, l.head? = some c → p c = false) → l.dropWhile p = l := by
  intro l
  cases l with
  | nil => intro _; rfl
  | cons c rest =>
    intro h
    have := h c rfl
    simp [List.dropWhile, this]

/-- Stripping fixes a string with no leading or trailing space. -/
theorem pyStrip_id (l : List Char)
    (hg : ∀ c ∈ l, goodChar c = true)
    (hh : ∀ c, l.head? = some c → c ≠ ' ')
    (hl : ∀ c, l.getLast? = some c → c ≠ ' ') : pyStrip l = l := by
  unfold pyStrip
  have h1 : l.dropWhile isPySpace = l := by
    apply dropWhile_id_of_head
    intro c hc
    exact good_not_space c (hg c (by
      cases l with
      | nil => simp at hc
      | cons a t =>
        simp at hc
        subst hc
        exact List.mem_cons_self a t)) (hh c hc)
  rw [h1]
  have h2 : l.reverse.dropWhile isPySpace = l.reverse := by
    apply dropWhile_id_of_head
    intro c hc
    rw [List.head?_reverse] at hc
    refine good_not_space c (hg c ?_) (hl c hc)
    rcases List.mem_getLast?_eq_getLast (show c ∈ l.getLast? from hc) with ⟨hne, hcc⟩
    rw [hcc]
    exact List.getLast_mem hne
  rw [h2, List.reverse_reverse]

/-- A string in normal form is a fixed point of `normalize_text`, for
every decomposition table. -/
theorem normalizeTextWith_fixed (fold : Char → List Char) (l : List Char)
    (h : NormalForm l) : normalizeTextWith fold l = l := by
  rcases h with ⟨hg, hch, hh, hl⟩
  cases l with
  | nil => rfl
  | cons c rest =>
    unfold normalizeTextWith
    simp only [List.isEmpty_cons, Bool.false_eq_true, if_false]
    rw [flatten_map_singleton (foldAscii fold) (c :: rest)
      (fun d hd => good_foldAscii fold d (hg d hd))]
    rw [scrub_id (c :: rest) hg]
    rw [(collapseWs_id (c :: rest) hg hch).1]
    exact pyStrip_id (c :: rest) hg hh hl

/-- After the scrub every character is a lowercase alphanumeric or
whitespace. -/
theorem scrub_chars (x : List Char) :
    ∀ c ∈ scrub x, (isLowerAlnum c || isPySpace c) = true := by
  intro c hc
  rcases List.mem_map.mp hc with ⟨d, _, hd⟩
  by_cases hk : (isLowerAlnum d || isPySpace d) = true
  · rw [← hd]
    simp [hk]
  · rw [← hd]
    simp [hk]
    decide

/-- After collapsing, every character of a scrubbed string is
normalized. -/
theorem collapseWs_chars : ∀ (x : List Char) (b : Bool),
    (∀ c ∈ x, (isLowerAlnum c || isPySpace c) = true) →
    ∀ c ∈ collapseWs x b, goodChar c = true := by
  intro x
  induction x with
  | nil => intro b _ c hc; simp [collapseWs] at hc
  | cons a rest ih =>
    intro b hx c hc
    have hxr : ∀ c ∈ rest, (isLowerAlnum c || isPySpace c) = true :=
      fun d hd => hx d (List.mem_cons_of_mem a hd)
    by_cases hsp : isPySpace a = true
    · rw [collapseWs] at hc
      simp only [hsp, if_true] at hc
      cases b with
      | true => exact ih true hxr c hc
      | false =>
        simp only [Bool.false_eq_true, if_false] at hc
        rcases List.mem_cons.mp hc with h | h
        · subst h; decide
        · exact ih true hxr c h
    · have hspf : isPySpace a = false := by simpa using hsp
      rw [collapseWs] at hc
      simp only [hspf, Bool.false_eq_true, if_false] at hc
      rcases List.mem_cons.mp hc with h | h
      · subst h
        have hgx := hx c (List.mem_cons_self c rest)
        simp only [goodChar]
        rcases Bool.or_eq_true_iff.mp hgx with h1 | h1
        · simp [h1]
        · rw [h1] at hspf; cases hspf
      · exact ih false hxr c h

/-- A non-whitespace character is not the space. -/
theorem not_space_ne_blank (c : Char) (h : isPySpace c = false) : c ≠ ' ' := by
  intro hc
  subst hc
  simp [isPySpace] at h

/-- Collapsing yields no two adjacent spaces, and (when `prev` is set) no
leading space. -/
theorem collapseWs_chain : ∀ (x : List Char) (b : Bool),
    (collapseWs x b).Chain' NoTwoSpaces ∧
    (b = true → ∀ c, (collapseWs x b).head? = some c → c ≠ ' ') := by
  intro x
  induction x with
  | nil => intro b; exact ⟨List.chain'_nil, by intro _ c hc; simp [collapseWs] at hc⟩
  | cons a rest ih =>
    intro b
    by_cases hsp : isPySpace a = true
    · cases b with
      | true =>
        rw [collapseWs]
        simp only [hsp, if_true]
        exact ⟨(ih true).1, fun _ => (ih true).2 rfl⟩
      | false =>
        rw [collapseWs]
        simp only [hsp, if_true, Bool.false_eq_true, if_false]
        constructor
        · rw [List.chain'_cons']
          constructor
          · intro y hy
            have hy' := (ih true).2 rfl y (by simpa using hy)
            simp only [NoTwoSpaces, not_and]
            intro _
            exact hy'
          · exact (ih true).1
        · intro hb; cases hb
    · have hspf : isPySpace a = false := by simpa using hsp
      have hane := not_space_ne_blank a hspf
      rw [collapseWs]
      simp only [hspf, Bool.false_eq_true, if_false]
      constructor
      · rw [List.chain'_cons']
        constructor
        · intro y _
          simp only [NoTwoSpaces, not_and]
          intro ha
          exact absurd ha hane
        · exact (ih false).1
      · intro _ c hc
        simp only [List.head?_cons, Option.some.injEq] at hc
        subst hc
        exact hane

/-- `dropWhile` keeps a suffix, preserving `Chain'`. -/
theorem chain_dropWhile {R : Char → Char → Prop} (p : Char → Bool) :
    ∀ l : List Char, l.Chain' R → (l.dropWhile p).Chain' R := by
  intro l
  induction l with
  | nil => intro _; simp [List.dropWhile]
  | cons a rest ih =>
    intro h
    by_cases hp : p a = true
    · simp only [List.dropWhile, hp]
      exact ih (List.chain'_cons'.mp h).2
    · have : p a = false := by simpa using hp
      simp only [List.dropWhile, this]
      exact h

/-- The head surviving a `dropWhile` fails the predicate. -/
theorem head?_dropWhile (p : Char → Bool) :
    ∀ l : List Char, ∀ c, (l.dropWhile p).head? = some c → p c = false := by
  intro l
  induction l with
  | nil => intro c hc; simp [List.dropWhile] at hc
  | cons a rest ih =>
    intro c hc
    by_cases hp : p a = true
    · simp only [List.dropWhile, hp] at hc
      exact ih c hc
    · have hp' : p a = false := by simpa using hp
      simp only [List.dropWhile, hp'] at hc
      simp only [List.head?_cons, Option.some.injEq] at hc
      subst hc
      exact hp'

/-- A non-empty `dropWhile` result keeps the original last element. -/
theorem getLast?_dropWhile (p : Char → Bool) :
    ∀ l : List Char, l.dropWhile p ≠ [] →
      (l.dropWhile p).getLast? = l.getLast? := by
  intro l
  induction l with
  | nil => intro h; simp [List.dropWhile] at h
  | cons a rest ih =>
    intro h
    by_cases hp : p a = true
    · simp only [List.dropWhile, hp] at h ⊢
      cases hr : rest with
      | nil => rw [hr] at h; simp [List.dropWhile] at h
      | cons b t =>
        rw [← hr]
        rw [ih h, hr]
        rfl
    · have hp' : p a = false := by simpa using hp
      simp only [List.dropWhile, hp'] at h ⊢

/-- Every output of `normalize_text` is in normal form, for every
decomposition table. -/
theorem normalizeTextWith_normal (fold : Char → List Char) (s : List Char) :
    NormalForm (normalizeTextWith fold s) := by
  unfold normalizeTextWith
  by_cases he : s.isEmpty
  · simp only [he, if_true]
    exact ⟨by simp, List.chain'_nil, by simp, by simp⟩
  · simp only [he, Bool.false_eq_true, if_false]
    have hm_good : ∀ c ∈ collapseWs (scrub ((s.map (foldAscii fold)).flatten)) false,
        goodChar c = true :=
      collapseWs_chars _ false (scrub_chars _)
    have hm_chain : (collapseWs (scrub ((s.map (foldAscii fold)).flatten)) false).Chain'
        NoTwoSpaces :=
      (collapseWs_chain _ false).1
    set m := collapseWs (scrub ((s.map (foldAscii fold)).flatten)) false with hm
    unfold pyStrip
    refine ⟨?_, ?_, ?_, ?_⟩
    · intro c hc
      rw [List.mem_reverse] at hc
      have h1 : c ∈ (m.dropWhile isPySpace).reverse :=
        List.Sublist.subset (List.dropWhile_sublist _) hc
      rw [List.mem_reverse] at h1
      exact hm_good c (List.Sublist.subset (List.dropWhile_sublist _) h1)
    · have h1 : (m.dropWhile isPySpace).Chain' NoTwoSpaces :=
        chain_dropWhile _ m hm_chain
      have h2 : (m.dropWhile isPySpace).reverse.Chain' (flip NoTwoSpaces) := by
        rw [List.chain'_reverse]
        exact h1
      have h3 : ((m.dropWhile isPySpace).reverse.dropWhile isPySpace).Chain'
          (flip NoTwoSpaces) := chain_dropWhile _ _ h2
      rw [List.chain'_reverse]
      exact h3
    · intro c hc
      rw [List.head?_reverse] at hc
      have hne : (m.dropWhile isPySpace).reverse.dropWhile isPySpace ≠ [] := by
        intro h0
        rw [h0] at hc
        simp at hc
      rw [getLast?_dropWhile _ _ hne, List.getLast?_reverse] at hc
      exact not_space_ne_blank c (head?_dropWhile _ m c hc)
    · intro c hc
      rw [List.getLast?_reverse] at hc
      exact not_space_ne_blank c
        (head?_dropWhile _ (m.dropWhile isPySpace).reverse c hc)

/-- C9: text normalization is idempotent —
`normalize(normalize(x)) = normalize(x)` for every string `x`, for every
NFKD decomposition table (in particular the real one), and for the
concrete `normalize_text` of the embedding. -/
theorem normalize_idempotent :
    (∀ (fold : Char → List Char) (s : List Char),
      normalizeTextWith fold (normalizeTextWith fold s) =
        normalizeTextWith fold s) ∧
    (∀ s : List Char, normalize_text (normalize_text s) = normalize_text s) := by
  have h : ∀ (fold : Char → List Char) (s : List Char),
      normalizeTextWith fold (normalizeTextWith fold s) =
        normalizeTextWith fold s :=
    fun fold s => normalizeTextWith_fixed fold _ (normalizeTextWith_normal fold s)
  exact ⟨h, fun s => h nfkdFold s⟩
